import Mathlib

/-!
Verification development for the serde-yaml deserializer engine.

The definitions below are a shallow embedding of src/de.rs, src/error.rs and
src/spanned.rs.  Machine integers are modelled as Nat/Int with explicit range
checks, byte strings as List Char (all inputs of interest are UTF-8), and
doubles as a symbolic type that distinguishes the special values and carries
the accepted source text for finite values.  Parts of the crate that are not
under src (the loader, the path renderer, the libyaml tag/mark helpers) are
modelled from the specification and marked as such in their doc comments.
-/

namespace SerdeYaml

/-- Modelled from the spec: a Mark is a byte offset plus 0-indexed line and
column attached to every event (libyaml error.rs is not under src). -/
structure Mark where
  index : Nat
  line : Nat
  column : Nat
deriving DecidableEq, Repr

/-- Modelled from the spec and the repository tests: a Mark renders as
"line L column C" with 1-indexed line/column, or as "position I" when both
line and column are zero. -/
def Mark.display (m : Mark) : String :=
  if m.line = 0 ∧ m.column = 0 then "position " ++ toString m.index
  else "line " ++ toString (m.line + 1) ++ " column " ++ toString (m.column + 1)

/-- Scalar styles, from src/libyaml/parser.rs. -/
inductive ScalarStyle
  | plain
  | singleQuoted
  | doubleQuoted
  | literal
  | folded
deriving DecidableEq, Repr

/-- Modelled from the spec: a YAML tag is an opaque byte string; the core
schema tags carry the canonical yaml.org names (libyaml tag.rs is not under
src). -/
structure Tag where
  bytes : String
deriving DecidableEq, Repr

def Tag.boolTag : Tag := ⟨"tag:yaml.org,2002:bool"⟩

def Tag.intTag : Tag := ⟨"tag:yaml.org,2002:int"⟩

def Tag.floatTag : Tag := ⟨"tag:yaml.org,2002:float"⟩

def Tag.nullTag : Tag := ⟨"tag:yaml.org,2002:null"⟩

/-- Scalar event payload, from src/libyaml/parser.rs (the source-slice field
used only for zero-copy borrowing is omitted: it never changes a decoded
value). -/
structure Scalar where
  tag : Option Tag
  style : ScalarStyle
  value : List Char
deriving DecidableEq, Repr

/-- Document-level events, from the Event enum in src/de.rs. -/
inductive Event
  | alias (id : Nat)
  | scalar (sc : Scalar)
  | sequenceStart
  | sequenceEnd
  | mappingStart
  | mappingEnd
deriving DecidableEq, Repr

/-- Position payload stamped onto semantic errors, from src/error.rs (the
path is stored already rendered to a string, as in the source). -/
structure ErrPos where
  mark : Mark
  path : String
deriving DecidableEq, Repr

/-- Error representation, from the ErrorImpl enum in src/error.rs.  The
variants wrapping external error types (libyaml, io, utf8) are modelled as
carrying their display text. -/
inductive ErrorImpl
  | message (msg : String) (pos : Option ErrPos)
  | libyamlError (msg : String) (mark : Mark)
  | ioError (msg : String)
  | fromUtf8 (msg : String)
  | endOfStream
  | moreThanOneDocument
  | recursionLimitExceeded (mark : Mark)
  | unknownAnchor (mark : Mark)
  | shared (e : ErrorImpl)
deriving DecidableEq, Repr

/-- Document, from src/loader.rs as described by the spec: an ordered event
sequence, an alias-id to event-index table, and an optional deferred error. -/
structure Document where
  events : List (Event × Mark)
  aliases : List (Nat × Nat)
  error : Option ErrorImpl
deriving Repr

/-- Symbolic model of an f64 produced by scalar resolution: the special
values are distinguished, and a finite double is identified by the numeric
text the parser accepted. -/
inductive YF64
  | posInf
  | negInf
  | nan
  | finite (text : List Char)
deriving DecidableEq, Repr

def YF64.isFinite : YF64 → Bool
  | .finite _ => true
  | _ => false

/-- Generic value produced by the self-describing "any" shape, mirroring the
visitor callbacks invoked by src/de.rs (visit_unit, visit_bool, visit_u64,
visit_i64, visit_u128, visit_i128, visit_f64, visit_str, visit_seq,
visit_map). -/
inductive Value
  | unit
  | bool (b : Bool)
  | u64 (n : Nat)
  | i64 (n : Int)
  | u128 (n : Nat)
  | i128 (n : Int)
  | f64 (x : YF64)
  | str (s : List Char)
  | seq (items : List Value)
  | map (entries : List (Value × Value))
deriving Repr

/-! ## Scalar parsing, from src/de.rs -/

/-- Translation of parse_null from src/de.rs. -/
def parse_null (scalar : List Char) : Option Unit :=
  if scalar = "~".data ∨ scalar = "null".data then some () else none

/-- Translation of parse_bool from src/de.rs. -/
def parse_bool (scalar : List Char) : Option Bool :=
  if scalar = "true".data then some true
  else if scalar = "false".data then some false
  else none

/-- Translation of digits_but_not_number from src/de.rs: one optional sign,
then a leading zero followed by at least one more character, all of which
are ascii digits. -/
def digits_but_not_number (scalar : List Char) : Bool :=
  let s := match scalar with
    | c :: rest => if c = '-' ∨ c = '+' then rest else scalar
    | [] => scalar
  match s with
  | c :: rest => c == '0' && decide (rest ≠ []) && rest.all (·.isDigit)
  | [] => false

def startsWithSign : List Char → Bool
  | c :: _ => c == '+' || c == '-'
  | [] => false

def stripPrefix1 (a : Char) : List Char → Option (List Char)
  | c :: rest => if c = a then some rest else none
  | [] => none

def stripPrefix2 (a b : Char) : List Char → Option (List Char)
  | c :: d :: rest => if c = a ∧ d = b then some rest else none
  | _ => none

def stripPrefix3 (a b c : Char) : List Char → Option (List Char)
  | x :: y :: z :: rest => if x = a ∧ y = b ∧ z = c then some rest else none
  | _ => none

/-- Model of char::to_digit as used by the std from_str_radix functions:
digits 0-9 and letters (case-insensitive) up to the radix. -/
def rustDigitVal (c : Char) : Option Nat :=
  if '0' ≤ c ∧ c ≤ '9' then some (c.toNat - '0'.toNat)
  else if 'a' ≤ c ∧ c ≤ 'z' then some (c.toNat - 'a'.toNat + 10)
  else if 'A' ≤ c ∧ c ≤ 'Z' then some (c.toNat - 'A'.toNat + 10)
  else none

def digitValRadix (radix : Nat) (c : Char) : Option Nat :=
  match rustDigitVal c with
  | some d => if d < radix then some d else none
  | none => none

def parseRadixDigitsAux (radix : Nat) (acc : Nat) : List Char → Option Nat
  | [] => some acc
  | c :: rest =>
    match digitValRadix radix c with
    | some d => parseRadixDigitsAux radix (acc * radix + d) rest
    | none => none

/-- Digit-string value in the given radix; none on an empty string or an
invalid digit. -/
def parseRadixDigits (radix : Nat) (s : List Char) : Option Nat :=
  match s with
  | [] => none
  | _ => parseRadixDigitsAux radix 0 s

/-- Model of uN::from_str_radix for an unsigned width with exclusive bound
2^N: optional sign, then digits; a '-' sign only admits the value zero;
overflow is rejected. -/
def uintFromStrRadix (bound : Nat) (radix : Nat) (s : List Char) : Option Nat :=
  match s with
  | c :: rest =>
    if c = '+' then
      (parseRadixDigits radix rest).bind fun n => if n < bound then some n else none
    else if c = '-' then
      (parseRadixDigits radix rest).bind fun n => if n = 0 then some 0 else none
    else
      (parseRadixDigits radix s).bind fun n => if n < bound then some n else none
  | [] => none

/-- Model of iN::from_str_radix for a signed width with magnitude bound
2^(N-1): optional sign, then digits; range [-2^(N-1), 2^(N-1) - 1]. -/
def intFromStrRadix (pow : Nat) (radix : Nat) (s : List Char) : Option Int :=
  match s with
  | c :: rest =>
    if c = '-' then
      (parseRadixDigits radix rest).bind fun n =>
        if n ≤ pow then some (-(n : Int)) else none
    else if c = '+' then
      (parseRadixDigits radix rest).bind fun n =>
        if n < pow then some (n : Int) else none
    else
      (parseRadixDigits radix s).bind fun n =>
        if n < pow then some (n : Int) else none
  | [] => none

/-- Decimal fallback of parse_unsigned_int from src/de.rs: rejects a leading
sign, rejects leading-zero digit runs, then parses base 10. -/
def puiDecimal {α : Type} (fsr : Nat → List Char → Option α)
    (scalar unpositive : List Char) : Option α :=
  if startsWithSign unpositive then none
  else if digits_but_not_number scalar then none
  else fsr 10 unpositive

/-- Binary-prefix branch of parse_unsigned_int from src/de.rs, falling
through to the decimal branch exactly as the source does. -/
def puiBin {α : Type} (fsr : Nat → List Char → Option α)
    (scalar unpositive : List Char) : Option α :=
  match stripPrefix2 '0' 'b' unpositive with
  | some rest =>
    if startsWithSign rest then none
    else
      match fsr 2 rest with
      | some i => some i
      | none => puiDecimal fsr scalar unpositive
  | none => puiDecimal fsr scalar unpositive

/-- Octal-prefix branch of parse_unsigned_int from src/de.rs. -/
def puiOct {α : Type} (fsr : Nat → List Char → Option α)
    (scalar unpositive : List Char) : Option α :=
  match stripPrefix2 '0' 'o' unpositive with
  | some rest =>
    if startsWithSign rest then none
    else
      match fsr 8 rest with
      | some i => some i
      | none => puiBin fsr scalar unpositive
  | none => puiBin fsr scalar unpositive

/-- Translation of parse_unsigned_int from src/de.rs: strip one leading '+',
try the 0x/0o/0b radix prefixes (no sign allowed after a prefix), then the
guarded decimal parse. -/
def parse_unsigned_int {α : Type} (fsr : Nat → List Char → Option α)
    (scalar : List Char) : Option α :=
  let unpositive := (stripPrefix1 '+' scalar).getD scalar
  match stripPrefix2 '0' 'x' unpositive with
  | some rest =>
    if startsWithSign rest then none
    else
      match fsr 16 rest with
      | some i => some i
      | none => puiOct fsr scalar unpositive
  | none => puiOct fsr scalar unpositive

/-- Decimal fallback of parse_negative_int from src/de.rs. -/
def pniDecimal {α : Type} (fsr : Nat → List Char → Option α)
    (scalar : List Char) : Option α :=
  if digits_but_not_number scalar then none
  else fsr 10 scalar

/-- Negative binary-prefix branch of parse_negative_int from src/de.rs:
the sign is re-attached after stripping the prefix. -/
def pniBin {α : Type} (fsr : Nat → List Char → Option α)
    (scalar : List Char) : Option α :=
  match stripPrefix3 '-' '0' 'b' scalar with
  | some rest =>
    match fsr 2 ('-' :: rest) with
    | some i => some i
    | none => pniDecimal fsr scalar
  | none => pniDecimal fsr scalar

/-- Negative octal-prefix branch of parse_negative_int from src/de.rs. -/
def pniOct {α : Type} (fsr : Nat → List Char → Option α)
    (scalar : List Char) : Option α :=
  match stripPrefix3 '-' '0' 'o' scalar with
  | some rest =>
    match fsr 8 ('-' :: rest) with
    | some i => some i
    | none => pniBin fsr scalar
  | none => pniBin fsr scalar

/-- Translation of parse_negative_int from src/de.rs. -/
def parse_negative_int {α : Type} (fsr : Nat → List Char → Option α)
    (scalar : List Char) : Option α :=
  match stripPrefix3 '-' '0' 'x' scalar with
  | some rest =>
    match fsr 16 ('-' :: rest) with
    | some i => some i
    | none => pniOct fsr scalar
  | none => pniOct fsr scalar

/-! ## Float parsing -/

def asciiLower (c : Char) : Char :=
  if 'A' ≤ c ∧ c ≤ 'Z' then Char.ofNat (c.toNat + 32) else c

def digitsToNat (ds : List Char) : Nat :=
  ds.foldl (fun a c => a * 10 + (c.toNat - '0'.toNat)) 0

/-- Exponent suffix of the std float grammar: empty, or e/E followed by an
optionally signed nonempty digit run. -/
def expDigits (ds : List Char) : Option Nat :=
  if decide (ds ≠ []) && ds.all (·.isDigit) then some (digitsToNat ds) else none

def parseExpPart : List Char → Option Int
  | [] => some 0
  | c :: rest =>
    if c = 'e' ∨ c = 'E' then
      match rest with
      | d :: ds =>
        if d = '+' then (expDigits ds).map fun n => (n : Int)
        else if d = '-' then (expDigits ds).map fun n => -(n : Int)
        else (expDigits rest).map fun n => (n : Int)
      | [] => none
    else none

/-- Number part of the std float grammar after the sign: digit run with an
optional dot and fraction, or a dot with a nonempty fraction, then an
optional exponent.  Returns (mantissa digits value, fraction length,
exponent). -/
def parseDecNumber (s : List Char) : Option (Nat × Nat × Int) :=
  let ipart := s.takeWhile (·.isDigit)
  let r1 := s.dropWhile (·.isDigit)
  match r1 with
  | '.' :: t =>
    let fpart := t.takeWhile (·.isDigit)
    let r2 := t.dropWhile (·.isDigit)
    if ipart = [] ∧ fpart = [] then none
    else (parseExpPart r2).map fun e => (digitsToNat (ipart ++ fpart), fpart.length, e)
  | _ =>
    if ipart = [] then none
    else (parseExpPart r1).map fun e => (digitsToNat ipart, 0, e)

/-- Smallest decimal magnitude that rounds to infinity in binary64
round-to-nearest-even. -/
def f64OverflowThreshold : Nat := 2 ^ 1024 - 2 ^ 970

/-- Whether the exact value n * 10^(e - fracLen) overflows binary64. -/
def decOverflows (n : Nat) (fracLen : Nat) (e : Int) : Bool :=
  let d : Int := e - (fracLen : Int)
  if 0 ≤ d then decide (f64OverflowThreshold ≤ n * 10 ^ d.toNat)
  else decide (f64OverflowThreshold * 10 ^ (-d).toNat ≤ n)

/-- Model of str::parse::<f64> from std: optional sign, then the keywords
inf/infinity/nan (case-insensitive) or a decimal number; a finite result
carries the input text, and a decimal magnitude beyond the binary64 range
rounds to the signed infinity. -/
def rustParseF64 (s : List Char) : Option YF64 :=
  let neg := match s with
    | c :: _ => c == '-'
    | [] => false
  let rest := match s with
    | c :: r => if c = '+' ∨ c = '-' then r else s
    | [] => s
  let low := rest.map asciiLower
  if low = "inf".data ∨ low = "infinity".data then
    some (if neg then .negInf else .posInf)
  else if low = "nan".data then some .nan
  else
    match parseDecNumber rest with
    | some (n, f, e) =>
      if decOverflows n f e then some (if neg then .negInf else .posInf)
      else some (.finite s)
    | none => none

/-- Translation of parse_f64 from src/de.rs: strip one leading '+' (a second
sign rejects), match the nine special spellings, else the std parse accepted
only when finite. -/
def parse_f64 (scalar : List Char) : Option YF64 :=
  let unpositiveOpt : Option (List Char) := match stripPrefix1 '+' scalar with
    | some rest => if startsWithSign rest then none else some rest
    | none => some scalar
  match unpositiveOpt with
  | none => none
  | some unpositive =>
    if unpositive = ".inf".data ∨ unpositive = ".Inf".data ∨ unpositive = ".INF".data then
      some .posInf
    else if scalar = "-.inf".data ∨ scalar = "-.Inf".data ∨ scalar = "-.INF".data then
      some .negInf
    else if scalar = ".nan".data ∨ scalar = ".NaN".data ∨ scalar = ".NAN".data then
      some .nan
    else
      match rustParseF64 unpositive with
      | some f => if f.isFinite then some f else none
      | none => none

/-! ## Untagged scalar resolution -/

/-- Translation of visit_int from src/de.rs instantiated at the generic
value visitor: unsigned 64, negative 64, unsigned 128, negative 128, in
that order; none hands the text back for the later stages. -/
def visit_int (v : List Char) : Option Value :=
  match parse_unsigned_int (uintFromStrRadix (2 ^ 64)) v with
  | some n => some (.u64 n)
  | none =>
  match parse_negative_int (intFromStrRadix (2 ^ 63)) v with
  | some n => some (.i64 n)
  | none =>
  match parse_unsigned_int (uintFromStrRadix (2 ^ 128)) v with
  | some n => some (.u128 n)
  | none =>
  match parse_negative_int (intFromStrRadix (2 ^ 127)) v with
  | some n => some (.i128 n)
  | none => none

/-- Translation of visit_untagged_scalar from src/de.rs instantiated at the
generic value visitor. -/
def visit_untagged_scalar (v : List Char) : Value :=
  if v = [] ∨ parse_null v = some () then .unit
  else
    match parse_bool v with
    | some b => .bool b
    | none =>
      match visit_int v with
      | some x => x
      | none =>
        if !digits_but_not_number v then
          match parse_f64 v with
          | some f => .f64 f
          | none => .str v
        else .str v

/-! ## Claim-side resolution chains -/

/-- Resolution chain written from the words of claim C1: empty or null texts,
exact-case booleans, the integer grammar tried as unsigned 64, signed 64,
unsigned 128, signed 128 in order, then the float grammar, then the literal
string.  This spec-side definition is compared against visit_untagged_scalar. -/
def claimedAnyResolution (v : List Char) : Value :=
  if v = [] ∨ v = "~".data ∨ v = "null".data then .unit
  else if v = "true".data then .bool true
  else if v = "false".data then .bool false
  else
    match parse_unsigned_int (uintFromStrRadix (2 ^ 64)) v with
    | some n => .u64 n
    | none =>
    match parse_negative_int (intFromStrRadix (2 ^ 63)) v with
    | some n => .i64 n
    | none =>
    match parse_unsigned_int (uintFromStrRadix (2 ^ 128)) v with
    | some n => .u128 n
    | none =>
    match parse_negative_int (intFromStrRadix (2 ^ 127)) v with
    | some n => .i128 n
    | none =>
      match parse_f64 v with
      | some f => .f64 f
      | none => .str v

/-- Claim C1's chain amended with the leading-zero guard the code applies
before the float attempt: an optionally signed all-digit token with a leading
zero skips the float grammar and resolves to the literal string. -/
def claimedAnyResolutionAmended (v : List Char) : Value :=
  if v = [] ∨ v = "~".data ∨ v = "null".data then .unit
  else if v = "true".data then .bool true
  else if v = "false".data then .bool false
  else
    match parse_unsigned_int (uintFromStrRadix (2 ^ 64)) v with
    | some n => .u64 n
    | none =>
    match parse_negative_int (intFromStrRadix (2 ^ 63)) v with
    | some n => .i64 n
    | none =>
    match parse_unsigned_int (uintFromStrRadix (2 ^ 128)) v with
    | some n => .u128 n
    | none =>
    match parse_negative_int (intFromStrRadix (2 ^ 127)) v with
    | some n => .i128 n
    | none =>
      if digits_but_not_number v then .str v
      else
        match parse_f64 v with
        | some f => .f64 f
        | none => .str v

/-! ## Path and error plumbing -/

/-- Modelled from the spec: path.rs is not under src; a Path is a
parent-linked trail of root, sequence-index, map-key, alias and unknown
segments used only for diagnostics. -/
inductive Path
  | root
  | seq (parent : Path) (index : Nat)
  | mapKey (parent : Path) (key : String)
  | aliasSeg (parent : Path)
  | unknown (parent : Path)
deriving Repr

/-- Modelled from the spec: dotted rendering of a non-root Path, matching
the error format seen in the repository tests (for example "b[0].C.d"). -/
def Path.renderAux : Path → String
  | .root => ""
  | .seq parent i => Path.renderAux parent ++ "[" ++ toString i ++ "]"
  | .mapKey parent key =>
    match parent with
    | .root => key
    | _ => Path.renderAux parent ++ "." ++ key
  | .aliasSeg parent => Path.renderAux parent
  | .unknown parent =>
    match parent with
    | .root => "?"
    | _ => Path.renderAux parent ++ ".?"

/-- Rendering of a Path; the root alone renders as a single dot. -/
def Path.render : Path → String
  | .root => "."
  | p => Path.renderAux p

/-- Translation of fix_mark from src/error.rs: stamp the mark and the
rendered path onto a Message error that has no position yet; every other
error is returned unchanged. -/
def fix_mark (error : ErrorImpl) (mark : Mark) (path : Path) : ErrorImpl :=
  match error with
  | .message msg none => .message msg (some ⟨mark, path.render⟩)
  | e => e

/-- Translation of ErrorImpl::display from src/error.rs. -/
def errorDisplay : ErrorImpl → String
  | .message msg none => msg
  | .message msg (some pos) =>
    if pos.path = "." then msg ++ " at " ++ pos.mark.display
    else pos.path ++ ": " ++ msg ++ " at " ++ pos.mark.display
  | .libyamlError msg _ => msg
  | .ioError msg => msg
  | .fromUtf8 msg => msg
  | .endOfStream => "EOF while parsing a value"
  | .moreThanOneDocument =>
    "deserializing from YAML containing more than one document is not supported"
  | .recursionLimitExceeded mark => "recursion limit exceeded at " ++ mark.display
  | .unknownAnchor mark => "unknown anchor at " ++ mark.display
  | .shared e => errorDisplay e

/-! ## Deserializer engine -/

/-- Engine results: a user-facing error from src/error.rs, or a fatal
branch modelling the panics that the loader contract rules out (and the
exhaustion of the fuel bounding the embedded recursion). -/
inductive EngineErr
  | err (e : ErrorImpl)
  | fatal (msg : String)
deriving DecidableEq, Repr

/-- Translation of peek_event_mark from src/de.rs: the event under the
cursor, or — past the end of the buffer — the document's deferred error
wrapped as a shared error, else end of stream. -/
def peekEventMark (doc : Document) (pos : Nat) : Except EngineErr (Event × Mark) :=
  match doc.events[pos]? with
  | some em => .ok em
  | none =>
    match doc.error with
    | some parseError => .error (.err (.shared parseError))
    | none => .error (.err .endOfStream)

/-- Association lookup in the alias table built by the loader. -/
def lookupAlias (aliases : List (Nat × Nat)) (id : Nat) : Option Nat :=
  match aliases with
  | [] => none
  | (k, v) :: rest => if k = id then some v else lookupAlias rest id

/-- Stack entries of the depth-tracked skip in ignore_any from src/de.rs. -/
inductive Nest
  | sequence
  | mapping
deriving DecidableEq, Repr

/-- Translation of ignore_any from src/de.rs: a pure depth-tracked skip
over one value, returning the cursor position after it.  The fuel argument
only bounds the recursion; the source's panics on unbalanced end events map
to the fatal result. -/
def ignoreAnyF (doc : Document) : Nat → Nat → List Nest → Except EngineErr Nat
  | 0, _, _ => .error (.fatal "fuel exhausted")
  | fuel + 1, pos, stack =>
    match peekEventMark doc pos with
    | .error e => .error e
    | .ok (ev, _) =>
      match ev with
      | .alias _ =>
        if stack.isEmpty then .ok (pos + 1)
        else ignoreAnyF doc fuel (pos + 1) stack
      | .scalar _ =>
        if stack.isEmpty then .ok (pos + 1)
        else ignoreAnyF doc fuel (pos + 1) stack
      | .sequenceStart => ignoreAnyF doc fuel (pos + 1) (.sequence :: stack)
      | .mappingStart => ignoreAnyF doc fuel (pos + 1) (.mapping :: stack)
      | .sequenceEnd =>
        match stack with
        | .sequence :: rest =>
          if rest.isEmpty then .ok (pos + 1)
          else ignoreAnyF doc fuel (pos + 1) rest
        | _ => .error (.fatal "unexpected end of sequence")
      | .mappingEnd =>
        match stack with
        | .mapping :: rest =>
          if rest.isEmpty then .ok (pos + 1)
          else ignoreAnyF doc fuel (pos + 1) rest
        | _ => .error (.fatal "unexpected end of mapping")

/-- Drain loop of end_sequence from src/de.rs: deserialize and discard the
remaining elements with the ignored-any shape, counting them, until the
SequenceEnd event is peeked. -/
def drainSeqF (doc : Document) : Nat → Nat → Nat → Except EngineErr (Nat × Nat)
  | 0, _, _ => .error (.fatal "fuel exhausted")
  | fuel + 1, pos, len =>
    match peekEventMark doc pos with
    | .error e => .error e
    | .ok (ev, _) =>
      match ev with
      | .sequenceEnd => .ok (len, pos)
      | _ =>
        match ignoreAnyF doc fuel pos [] with
        | .error e => .error e
        | .ok pos1 => drainSeqF doc fuel pos1 (len + 1)

/-- Drain loop of end_mapping from src/de.rs: skip remaining key and value
pairs with the ignored-any shape, counting entries, until the MappingEnd
event is peeked. -/
def drainMapF (doc : Document) : Nat → Nat → Nat → Except EngineErr (Nat × Nat)
  | 0, _, _ => .error (.fatal "fuel exhausted")
  | fuel + 1, pos, len =>
    match peekEventMark doc pos with
    | .error e => .error e
    | .ok (ev, _) =>
      match ev with
      | .mappingEnd => .ok (len, pos)
      | _ =>
        match ignoreAnyF doc fuel pos [] with
        | .error e => .error e
        | .ok pos1 =>
          match ignoreAnyF doc fuel pos1 [] with
          | .error e => .error e
          | .ok pos2 => drainMapF doc fuel pos2 (len + 1)

/-- Expected-length description rendered by end_sequence from src/de.rs. -/
def expectedSeqText (len : Nat) : String :=
  if len = 1 then "sequence of 1 element"
  else "sequence of " ++ toString len ++ " elements"

/-- Expected-length description rendered by end_mapping from src/de.rs. -/
def expectedMapText (len : Nat) : String :=
  if len = 1 then "map containing 1 entry"
  else "map containing " ++ toString len ++ " entries"

/-- Message built by serde's invalid_length error constructor. -/
def invalidLengthMsg (total : Nat) (expected : String) : String :=
  "invalid length " ++ toString total ++ ", expected " ++ expected

/-- Message built by serde's invalid_value error constructor for an
unexpected string. -/
def invalidValueMsg (v : List Char) (expected : String) : String :=
  "invalid value: string \"" ++ String.mk v ++ "\", expected " ++ expected

/-- Translation of end_sequence from src/de.rs: drain the unread remainder
counting the true total, consume the SequenceEnd event, and fail with an
invalid-length Message naming the true total when it disagrees with the
count of elements the caller consumed. -/
def endSequenceF (doc : Document) (fuel : Nat) (pos : Nat) (len : Nat) :
    Except EngineErr Nat :=
  match drainSeqF doc fuel pos len with
  | .error e => .error e
  | .ok (total, pos1) =>
    match peekEventMark doc pos1 with
    | .error e => .error e
    | .ok (ev, _) =>
      match ev with
      | .sequenceEnd =>
        if total = len then .ok (pos1 + 1)
        else .error (.err (.message (invalidLengthMsg total (expectedSeqText len)) none))
      | _ => .error (.fatal "expected a SequenceEnd event")

/-- Translation of end_mapping from src/de.rs. -/
def endMappingF (doc : Document) (fuel : Nat) (pos : Nat) (len : Nat) :
    Except EngineErr Nat :=
  match drainMapF doc fuel pos len with
  | .error e => .error e
  | .ok (total, pos1) =>
    match peekEventMark doc pos1 with
    | .error e => .error e
    | .ok (ev, _) =>
      match ev with
      | .mappingEnd =>
        if total = len then .ok (pos1 + 1)
        else .error (.err (.message (invalidLengthMsg total (expectedMapText len)) none))
      | _ => .error (.fatal "expected a MappingEnd event")

/-- Application of fix_mark on the error side of an engine step, as the
map_err closing each deserialize entry point of src/de.rs. -/
def withFixMark {α : Type} (mark : Mark) (path : Path) :
    Except EngineErr α → Except EngineErr α
  | .error (.err e) => .error (.err (fix_mark e mark path))
  | r => r

/-- Translation of visit_scalar from src/de.rs driven by the generic value
visitor: explicit core-schema tags force their type strictly with
invalid-value errors, untagged plain scalars resolve automatically, and
everything else is a string. -/
def visitScalar (sc : Scalar) : Except ErrorImpl Value :=
  match sc.tag with
  | some t =>
    if t = Tag.boolTag then
      match parse_bool sc.value with
      | some b => .ok (.bool b)
      | none => .error (.message (invalidValueMsg sc.value "a boolean") none)
    else if t = Tag.intTag then
      match visit_int sc.value with
      | some v => .ok v
      | none => .error (.message (invalidValueMsg sc.value "an integer") none)
    else if t = Tag.floatTag then
      match parse_f64 sc.value with
      | some f => .ok (.f64 f)
      | none => .error (.message (invalidValueMsg sc.value "a float") none)
    else if t = Tag.nullTag then
      match parse_null sc.value with
      | some _ => .ok .unit
      | none => .error (.message (invalidValueMsg sc.value "null") none)
    else .ok (.str sc.value)
  | none =>
    if sc.style = .plain then .ok (visit_untagged_scalar sc.value)
    else .ok (.str sc.value)

mutual

/-- Translation of deserialize_any from src/de.rs driven by the generic
value visitor: aliases jump through the loader table keeping the same
remaining depth, scalars resolve, containers pass the recursion guard and
then traverse lazily, and any error lacking a position is stamped with the
event's mark and the current path on the way out. -/
def deserializeAnyF (doc : Document) : Nat → Nat → Nat → Path → Except EngineErr (Value × Nat)
  | 0, _, _, _ => .error (.fatal "fuel exhausted")
  | fuel + 1, pos, depth, path =>
    match peekEventMark doc pos with
    | .error e => .error e
    | .ok (ev, mark) =>
      withFixMark mark path
        (match ev with
        | .alias id =>
          match lookupAlias doc.aliases id with
          | some target =>
            match deserializeAnyF doc fuel target depth (.aliasSeg path) with
            | .ok (v, _) => .ok (v, pos + 1)
            | .error e => .error e
          | none => .error (.fatal "unresolved alias")
        | .scalar sc =>
          match visitScalar sc with
          | .ok v => .ok (v, pos + 1)
          | .error e => .error (.err e)
        | .sequenceStart =>
          if depth = 0 then .error (.err (.recursionLimitExceeded mark))
          else
            match seqItemsF doc fuel (pos + 1) (depth - 1) path 0 with
            | .error e => .error e
            | .ok (items, pos1) =>
              match endSequenceF doc fuel pos1 items.length with
              | .error e => .error e
              | .ok pos2 => .ok (.seq items, pos2)
        | .mappingStart =>
          if depth = 0 then .error (.err (.recursionLimitExceeded mark))
          else
            match mapItemsF doc fuel (pos + 1) (depth - 1) path with
            | .error e => .error e
            | .ok (entries, pos1) =>
              match endMappingF doc fuel pos1 entries.length with
              | .error e => .error e
              | .ok pos2 => .ok (.map entries, pos2)
        | .sequenceEnd => .error (.fatal "unexpected end of sequence")
        | .mappingEnd => .error (.fatal "unexpected end of mapping"))
termination_by structural fuel => fuel

/-- Sequence traversal of SeqAccess::next_element_seed from src/de.rs with
the generic value visitor: one child per step, each with a numeric path
segment and the parent's remaining depth, until the SequenceEnd event is
peeked (and not yet consumed). -/
def seqItemsF (doc : Document) : Nat → Nat → Nat → Path → Nat → Except EngineErr (List Value × Nat)
  | 0, _, _, _, _ => .error (.fatal "fuel exhausted")
  | fuel + 1, pos, depth, path, idx =>
    match peekEventMark doc pos with
    | .error e => .error e
    | .ok (ev, _) =>
      match ev with
      | .sequenceEnd => .ok ([], pos)
      | _ =>
        match deserializeAnyF doc fuel pos depth (.seq path idx) with
        | .error e => .error e
        | .ok (v, pos1) =>
          match seqItemsF doc fuel pos1 depth path (idx + 1) with
          | .error e => .error e
          | .ok (vs, pos2) => .ok (v :: vs, pos2)
termination_by structural fuel => fuel

/-- Mapping traversal of MapAccess from src/de.rs with the generic value
visitor: keys are deserialized under the parent path; values under a
map-key segment when the key event is a scalar, else an unknown segment. -/
def mapItemsF (doc : Document) : Nat → Nat → Nat → Path → Except EngineErr (List (Value × Value) × Nat)
  | 0, _, _, _ => .error (.fatal "fuel exhausted")
  | fuel + 1, pos, depth, path =>
    match peekEventMark doc pos with
    | .error e => .error e
    | .ok (ev, _) =>
      match ev with
      | .mappingEnd => .ok ([], pos)
      | _ =>
        let valuePath : Path := match ev with
          | .scalar sc => .mapKey path (String.mk sc.value)
          | _ => .unknown path
        match deserializeAnyF doc fuel pos depth path with
        | .error e => .error e
        | .ok (k, pos1) =>
          match deserializeAnyF doc fuel pos1 depth valuePath with
          | .error e => .error e
          | .ok (v, pos2) =>
            match mapItemsF doc fuel pos2 depth path with
            | .error e => .error e
            | .ok (kvs, pos3) => .ok ((k, v) :: kvs, pos3)
termination_by structural fuel => fuel

end

/-- Translation of deserialize_option from src/de.rs driven by the generic
value visitor: the null decision is made on the peeked event; a None result
consumes the scalar, a Some result decodes the value in place, and a
non-null text under an explicit null tag is an invalid-value error. -/
def deserializeOptionF (doc : Document) : Nat → Nat → Nat → Path → Except EngineErr (Option Value × Nat)
  | 0, _, _, _ => .error (.fatal "fuel exhausted")
  | fuel + 1, pos, depth, path =>
    match peekEventMark doc pos with
    | .error e => .error e
    | .ok (ev, _) =>
      let someCase : Except EngineErr (Option Value × Nat) :=
        match deserializeAnyF doc (fuel + 1) pos depth path with
        | .ok (v, p) => .ok (some v, p)
        | .error e => .error e
      match ev with
      | .alias id =>
        match lookupAlias doc.aliases id with
        | some target =>
          match deserializeOptionF doc fuel target depth (.aliasSeg path) with
          | .ok (v, _) => .ok (v, pos + 1)
          | .error e => .error e
        | none => .error (.fatal "unresolved alias")
      | .scalar sc =>
        if sc.style ≠ ScalarStyle.plain then someCase
        else
          match sc.tag with
          | some t =>
            if t = Tag.nullTag then
              match parse_null sc.value with
              | some _ => .ok (none, pos + 1)
              | none => .error (.err (.message (invalidValueMsg sc.value "null") none))
            else someCase
          | none =>
            if decide (sc.value ≠ []) && (parse_null sc.value).isNone then someCase
            else .ok (none, pos + 1)
      | .sequenceStart => someCase
      | .mappingStart => someCase
      | .sequenceEnd => .error (.fatal "unexpected end of sequence")
      | .mappingEnd => .error (.fatal "unexpected end of mapping")

/-! ## Span capture -/

/-- Translation of SpannedMapAccess::start_location from src/de.rs. -/
def startLocation (doc : Document) (pos : Nat) : Except EngineErr Nat :=
  match doc.events[pos]? with
  | some (_, marker) => .ok marker.index
  | none => .error (.err .endOfStream)

/-- Scan of index_of_sequence_end from src/de.rs: walk forward keeping a
sequence nesting counter; the answer is one past the byte index of the
matching SequenceEnd mark. -/
def indexOfSequenceEndAux : List (Event × Mark) → Int → Except EngineErr Nat
  | [], _ => .error (.err .endOfStream)
  | (ev, marker) :: rest, level =>
    if ev = Event.sequenceStart then indexOfSequenceEndAux rest (level + 1)
    else if ev = Event.sequenceEnd then
      if level - 1 = 0 then .ok (marker.index + 1)
      else indexOfSequenceEndAux rest (level - 1)
    else indexOfSequenceEndAux rest level

/-- Translation of SpannedMapAccess::index_of_sequence_end from src/de.rs. -/
def indexOfSequenceEnd (doc : Document) (pos : Nat) : Except EngineErr Nat :=
  indexOfSequenceEndAux (doc.events.drop pos) 0

/-- Scan of index_of_mapping_end from src/de.rs: walk forward from one
before the cursor tracking sequence nesting, remembering the previous
event's byte index, which is returned when the enclosing sequence closes
(the documented off-by-one adjustment). -/
def indexOfMappingEndAux : List (Event × Mark) → Int → Option Nat → Except EngineErr Nat
  | [], _, lastIndex =>
    match lastIndex with
    | some i => .ok i
    | none => .error (.err .endOfStream)
  | (ev, marker) :: rest, level, lastIndex =>
    if ev = Event.sequenceStart then
      indexOfMappingEndAux rest (level + 1) (some marker.index)
    else if ev = Event.sequenceEnd then
      if level - 1 = 0 then
        match lastIndex with
        | some i => .ok i
        | none => .error (.err .endOfStream)
      else indexOfMappingEndAux rest (level - 1) (some marker.index)
    else indexOfMappingEndAux rest level (some marker.index)

/-- Translation of SpannedMapAccess::index_of_mapping_end from src/de.rs. -/
def indexOfMappingEnd (doc : Document) (pos : Nat) : Except EngineErr Nat :=
  indexOfMappingEndAux (doc.events.drop (pos - 1)) 0 none

/-- Translation of SpannedMapAccess::current_item_length from src/de.rs:
decoded byte length for a scalar; distance to the matching end for
containers. -/
def currentItemLength (doc : Document) (pos : Nat) : Except EngineErr Nat :=
  match doc.events[pos]? with
  | none => .error (.err .endOfStream)
  | some (ev, marker) =>
    match ev with
    | .scalar token => .ok token.value.length
    | .sequenceStart =>
      match indexOfSequenceEnd doc pos with
      | .ok e => .ok (e - marker.index)
      | .error e => .error e
    | .mappingStart =>
      match indexOfMappingEnd doc pos with
      | .ok e => .ok (e - marker.index)
      | .error e => .error e
    | _ => .ok 0

/-- Span capture at a position: the start byte offset and the computed item
length, the start and length fields produced by SpannedMapAccess. -/
def spanAt (doc : Document) (pos : Nat) : Except EngineErr (Nat × Nat) :=
  match startLocation doc pos, currentItemLength doc pos with
  | .ok s, .ok l => .ok (s, l)
  | .error e, _ => .error e
  | .ok _, .error e => .error e

/-! ## Loader model -/

/-- Modelled from the spec: raw events of one document as handed to the
loader by the event stream source, with textual anchors (loader.rs is not
under src). -/
inductive RawEvent
  | alias (anchor : String)
  | scalar (anchor : Option String) (sc : Scalar)
  | sequenceStart (anchor : Option String)
  | sequenceEnd
  | mappingStart (anchor : Option String)
  | mappingEnd
deriving Repr

/-- Modelled from the spec: loader state while buffering one document. -/
structure LoadState where
  anchors : List (String × Nat)
  aliases : List (Nat × Nat)
  events : List (Event × Mark)
deriving Repr

/-- Association lookup in the anchor-name table. -/
def lookupAnchor (anchors : List (String × Nat)) (name : String) : Option Nat :=
  match anchors with
  | [] => none
  | (k, v) :: rest => if k = name then some v else lookupAnchor rest name

/-- Modelled from the spec: register an anchor definition, giving it the
next alias id and recording the index of the event about to be pushed. -/
def registerAnchor (st : LoadState) (anchor : Option String) : LoadState :=
  match anchor with
  | none => st
  | some name =>
    let id := st.anchors.length
    { st with
        anchors := st.anchors ++ [(name, id)],
        aliases := st.aliases ++ [(id, st.events.length)] }

/-- Modelled from the spec: one loader step; an alias with no matching
anchor stops loading at that point with a deferred UnknownAnchor error tied
to the alias's mark, surfaced when the engine reaches that position. -/
def loadStep (st : LoadState) (re : RawEvent) (mark : Mark) :
    Except Document LoadState :=
  match re with
  | .alias name =>
    match lookupAnchor st.anchors name with
    | some id => .ok { st with events := st.events ++ [(Event.alias id, mark)] }
    | none => .error ⟨st.events, st.aliases, some (.unknownAnchor mark)⟩
  | .scalar anchor sc =>
    let st1 := registerAnchor st anchor
    .ok { st1 with events := st1.events ++ [(Event.scalar sc, mark)] }
  | .sequenceStart anchor =>
    let st1 := registerAnchor st anchor
    .ok { st1 with events := st1.events ++ [(Event.sequenceStart, mark)] }
  | .sequenceEnd => .ok { st with events := st.events ++ [(Event.sequenceEnd, mark)] }
  | .mappingStart anchor =>
    let st1 := registerAnchor st anchor
    .ok { st1 with events := st1.events ++ [(Event.mappingStart, mark)] }
  | .mappingEnd => .ok { st with events := st.events ++ [(Event.mappingEnd, mark)] }

/-- Modelled from the spec: run the loader over a raw event list; an early
Document result is a truncated document carrying a deferred error. -/
def loadRun (st : LoadState) : List (RawEvent × Mark) → Except Document LoadState
  | [] => .ok st
  | (re, m) :: rest =>
    match loadStep st re m with
    | .ok st1 => loadRun st1 rest
    | .error d => .error d

/-- Modelled from the spec: load one document, building the alias table and
deferring a dangling-alias error to the point of use. -/
def loadDocument (raw : List (RawEvent × Mark)) : Document :=
  match loadRun ⟨[], [], []⟩ raw with
  | .ok st => ⟨st.events, st.aliases, none⟩
  | .error d => d

/-! ## Entry points -/

/-- Translation of Deserializer::de from src/de.rs for the single-value
entry points, with the loader's stream modelled as the list of documents it
yields: the first document is deserialized with a fresh cursor and the
default depth budget of 128, then a second pending document turns the
result into the MoreThanOneDocument error. -/
def deserializeSingleDocument (docs : List Document) (fuel : Nat) :
    Except EngineErr Value :=
  match docs with
  | [] => .error (.err .endOfStream)
  | d :: rest =>
    match deserializeAnyF d fuel 0 128 .root with
    | .error e => .error e
    | .ok (v, _) =>
      match rest with
      | [] => .ok v
      | _ => .error (.err .moreThanOneDocument)

/-- Translation of the Deserializer iterator from src/de.rs: every document
of the stream is deserialized independently, each with a fresh cursor and
the default depth budget. -/
def deserializeEachDocument (docs : List Document) (fuel : Nat) :
    List (Except EngineErr Value) :=
  docs.map fun d =>
    match deserializeAnyF d fuel 0 128 .root with
    | .ok (v, _) => .ok v
    | .error e => .error e

/-! ## Concrete documents used by the testable scenarios -/

/-- Marks of the nested-bracket inputs: byte i in column i of the single
input line. -/
def bracketMark (i : Nat) : Mark := ⟨i, 0, i⟩

/-- Run of k sequence-opening events starting at byte offset off. -/
def seqOpenRun (k off : Nat) : List (Event × Mark) :=
  (List.range k).map fun i => (Event.sequenceStart, bracketMark (off + i))

/-- Run of k sequence-closing events starting at byte offset off. -/
def seqCloseRun (k off : Nat) : List (Event × Mark) :=
  (List.range k).map fun i => (Event.sequenceEnd, bracketMark (off + i))

/-- Document of n balanced nested bracket pairs: n opening events at bytes
0..n-1 followed by the n matching closers. -/
def nestedSeqDoc (n : Nat) : Document :=
  ⟨seqOpenRun n 0 ++ seqCloseRun n n, [], none⟩

/-- Value decoded from k+1 nested sequence opens: singleton layers around
an empty innermost sequence. -/
def nestedSeqValue : Nat → Value
  | 0 => .seq []
  | k + 1 => .seq [nestedSeqValue k]

/-- Document with a root sequence holding two sibling blocks of 127 nested
bracket pairs each: each sibling alone exhausts the remaining budget, so
decoding both under one root demonstrates that the depth counter is
restored between siblings. -/
def siblingsDoc : Document :=
  ⟨[(Event.sequenceStart, bracketMark 0)] ++
    (seqOpenRun 127 1 ++ seqCloseRun 127 128) ++
    (seqOpenRun 127 255 ++ seqCloseRun 127 382) ++
    [(Event.sequenceEnd, bracketMark 509)], [], none⟩

/-- First document of the two-document example input, one plain scalar 0. -/
def docScalar0 : Document :=
  ⟨[(Event.scalar ⟨none, .plain, "0".data⟩, ⟨4, 1, 0⟩)], [], none⟩

/-- Second document of the two-document example input, one plain scalar 1. -/
def docScalar1 : Document :=
  ⟨[(Event.scalar ⟨none, .plain, "1".data⟩, ⟨10, 3, 0⟩)], [], none⟩

/-- Input of the span-capture scenario. -/
def spanExampleInput : String := " [1, 22, 333]"

/-- Events of the span-capture scenario with the marks the tokenizer
produces for " [1, 22, 333]": the sequence opens at byte 1, each scalar
mark is the byte offset of its first character, and the closing bracket
sits at byte 12. -/
def spanExampleDoc : Document :=
  ⟨[(Event.sequenceStart, ⟨1, 0, 1⟩),
    (Event.scalar ⟨none, .plain, "1".data⟩, ⟨2, 0, 2⟩),
    (Event.scalar ⟨none, .plain, "22".data⟩, ⟨5, 0, 5⟩),
    (Event.scalar ⟨none, .plain, "333".data⟩, ⟨9, 0, 9⟩),
    (Event.sequenceEnd, ⟨12, 0, 12⟩)], [], none⟩

/-- Substring of byte range [start, start + len) of a one-byte-per-char
input. -/
def substringBytes (s : String) (start len : Nat) : List Char :=
  (s.data.drop start).take len

/-- Raw events of the input "[1, *a]" where the anchor a is never defined:
a sequence holding the scalar 1 and then a dangling alias. -/
def seqWithDanglingAlias : List (RawEvent × Mark) :=
  [(RawEvent.sequenceStart none, ⟨0, 0, 0⟩),
   (RawEvent.scalar none ⟨none, .plain, "1".data⟩, ⟨1, 0, 1⟩),
   (RawEvent.alias "a", ⟨4, 0, 4⟩),
   (RawEvent.sequenceEnd, ⟨7, 0, 7⟩)]

/-! ## Theorems -/

theorem stripPrefix1_eq_some {a : Char} {l r : List Char}
    (h : stripPrefix1 a l = some r) : l = a :: r := by
  cases l with
  | nil => simp [stripPrefix1] at h
  | cons c rest =>
    unfold stripPrefix1 at h
    by_cases hc : c = a
    · simp [hc] at h
      simp [hc, h]
    · simp [hc] at h

theorem stripPrefix3_ne_first {a b c x : Char} {l : List Char} (h : x ≠ a) :
    stripPrefix3 a b c (x :: l) = none := by
  cases l with
  | nil => rfl
  | cons y t =>
    cases t with
    | nil => rfl
    | cons z r => simp [stripPrefix3, h]

theorem leadingZeroToken_digits_but_not_number (ds : List Char) (v : List Char)
    (hshape : v = '0' :: ds ∨ v = '-' :: '0' :: ds ∨ v = '+' :: '0' :: ds)
    (hne : ds ≠ []) (hds : ds.all (·.isDigit) = true) :
    digits_but_not_number v = true := by
  rcases hshape with h|h|h <;> subst h <;>
    simp [digits_but_not_number, hne, hds]

theorem leadingZeroToken_parse_unsigned_int {α : Type}
    (fsr : Nat → List Char → Option α) (ds : List Char) (v : List Char)
    (hshape : v = '0' :: ds ∨ v = '-' :: '0' :: ds ∨ v = '+' :: '0' :: ds)
    (hne : ds ≠ []) (hds : ds.all (·.isDigit) = true) :
    parse_unsigned_int fsr v = none := by
  have hdig := leadingZeroToken_digits_but_not_number ds v hshape hne hds
  rcases ds with _ | ⟨d, rest⟩
  · exact absurd rfl hne
  have hd : d.isDigit = true := by
    simp [List.all_cons] at hds
    exact hds.1
  have hdx : d ≠ 'x' := by
    intro h
    rw [h] at hd
    exact absurd hd (by decide)
  have hdo : d ≠ 'o' := by
    intro h
    rw [h] at hd
    exact absurd hd (by decide)
  have hdb : d ≠ 'b' := by
    intro h
    rw [h] at hd
    exact absurd hd (by decide)
  rcases hshape with h|h|h <;> subst h <;>
    simp [parse_unsigned_int, stripPrefix1, stripPrefix2, puiOct, puiBin,
      puiDecimal, startsWithSign, hdx, hdo, hdb, hdig]

theorem leadingZeroToken_parse_negative_int {α : Type}
    (fsr : Nat → List Char → Option α) (ds : List Char) (v : List Char)
    (hshape : v = '0' :: ds ∨ v = '-' :: '0' :: ds ∨ v = '+' :: '0' :: ds)
    (hne : ds ≠ []) (hds : ds.all (·.isDigit) = true) :
    parse_negative_int fsr v = none := by
  have hdig := leadingZeroToken_digits_but_not_number ds v hshape hne hds
  rcases ds with _ | ⟨d, rest⟩
  · exact absurd rfl hne
  have hd : d.isDigit = true := by
    simp [List.all_cons] at hds
    exact hds.1
  have hdx : d ≠ 'x' := by
    intro h
    rw [h] at hd
    exact absurd hd (by decide)
  have hdo : d ≠ 'o' := by
    intro h
    rw [h] at hd
    exact absurd hd (by decide)
  have hdb : d ≠ 'b' := by
    intro h
    rw [h] at hd
    exact absurd hd (by decide)
  have hzc : ('0' : Char) ≠ '-' := by decide
  have hpc : ('+' : Char) ≠ '-' := by decide
  rcases hshape with h|h|h <;> subst h
  · simp [parse_negative_int, pniOct, pniBin, pniDecimal,
      stripPrefix3_ne_first hzc, hdig]
  · simp [parse_negative_int, stripPrefix3, pniOct, pniBin, pniDecimal,
      hdx, hdo, hdb, hdig]
  · simp [parse_negative_int, pniOct, pniBin, pniDecimal,
      stripPrefix3_ne_first hpc, hdig]

set_option maxRecDepth 16384 in
set_option exponentiation.threshold 2048 in
/-- C1 (counterexample): the untagged plain scalar "007" resolves to the
literal string under the code, while the claim's resolution chain (integer
widths, then the float grammar unconditionally) would accept it as the
double 7.0, because the standard decimal float parse accepts a leading-zero
digit run. -/
theorem c1_counterexample_007 :
    visit_untagged_scalar "007".data = Value.str "007".data ∧
    claimedAnyResolution "007".data = Value.f64 (YF64.finite "007".data) ∧
    Value.str "007".data ≠ Value.f64 (YF64.finite "007".data) :=
  ⟨rfl, rfl, fun h => Value.noConfusion h⟩

/-- C1 (corrected): for every untagged plain scalar deserialized with the
"any" shape, resolution is tried in the claimed fixed order — null texts,
exact-case booleans, integers as u64/i64/u128/i128 taking the first width
that parses, then the float grammar, then the literal string — with the one
amendment that an optionally signed all-digit token with a leading zero
skips the float grammar and resolves to the literal string. -/
theorem c1_untagged_resolution_order_amended (v : List Char) :
    visit_untagged_scalar v = claimedAnyResolutionAmended v := by
  by_cases hE : v = []
  · subst hE; rfl
  by_cases h1 : v = "~".data
  · subst h1; rfl
  by_cases h2 : v = "null".data
  · subst h2; rfl
  by_cases h3 : v = "true".data
  · subst h3; rfl
  by_cases h4 : v = "false".data
  · subst h4; rfl
  have hpn : parse_null v = none := by simp [parse_null, h1, h2]
  have hpb : parse_bool v = none := by simp [parse_bool, h3, h4]
  unfold visit_untagged_scalar claimedAnyResolutionAmended visit_int
  simp only [hpn, hpb, hE, h1, h2, h3, h4, if_false, or_false, false_or]
  simp only [reduceCtorEq, if_false, or_self, ite_false]
  cases hu1 : parse_unsigned_int (uintFromStrRadix (2 ^ 64)) v <;>
    simp only [hu1]
  cases hn1 : parse_negative_int (intFromStrRadix (2 ^ 63)) v <;>
    simp only [hn1]
  cases hu2 : parse_unsigned_int (uintFromStrRadix (2 ^ 128)) v <;>
    simp only [hu2]
  cases hn2 : parse_negative_int (intFromStrRadix (2 ^ 127)) v <;>
    simp only [hn2]
  cases hd : digits_but_not_number v <;> simp [hd]

/-- C3 (counterexample): the mixed-case spelling ".nAn" is not one of the
nine spellings parse_f64 recognizes and the standard float grammar rejects
it, so it resolves to the literal string rather than to NaN as the claim's
"regardless of letter case" requires. -/
theorem c3_counterexample_mixed_case_nan :
    parse_f64 ".nAn".data = none ∧
    visit_untagged_scalar ".nAn".data = Value.str ".nAn".data ∧
    (none : Option YF64) ≠ some YF64.nan :=
  ⟨rfl, rfl, by decide⟩

/-- C3 (corrected): parse_f64 maps the spellings .inf/.Inf/.INF (optionally
'+'-prefixed) to positive infinity, -.inf, -.Inf, -.INF to negative
infinity and .nan, .NaN, .NAN to NaN — exactly the lower, capitalized and upper casings
rather than arbitrary letter case — and any other accepted text comes from
the decimal float grammar and is finite: a non-finite result can only arise
from one of those special spellings. -/
theorem c3_float_specials_and_finiteness :
    (parse_f64 ".inf".data = some YF64.posInf ∧
     parse_f64 ".Inf".data = some YF64.posInf ∧
     parse_f64 ".INF".data = some YF64.posInf ∧
     parse_f64 "+.inf".data = some YF64.posInf ∧
     parse_f64 "+.Inf".data = some YF64.posInf ∧
     parse_f64 "+.INF".data = some YF64.posInf ∧
     parse_f64 "-.inf".data = some YF64.negInf ∧
     parse_f64 "-.Inf".data = some YF64.negInf ∧
     parse_f64 "-.INF".data = some YF64.negInf ∧
     parse_f64 ".nan".data = some YF64.nan ∧
     parse_f64 ".NaN".data = some YF64.nan ∧
     parse_f64 ".NAN".data = some YF64.nan) ∧
    (∀ (s : List Char) (f : YF64),
      parse_f64 s = some f → f.isFinite = false →
      (f = .posInf ∧ (s = ".inf".data ∨ s = ".Inf".data ∨ s = ".INF".data ∨
        s = "+.inf".data ∨ s = "+.Inf".data ∨ s = "+.INF".data)) ∨
      (f = .negInf ∧ (s = "-.inf".data ∨ s = "-.Inf".data ∨ s = "-.INF".data)) ∨
      (f = .nan ∧ (s = ".nan".data ∨ s = ".NaN".data ∨ s = ".NAN".data))) := by
  constructor
  · exact ⟨rfl, rfl, rfl, rfl, rfl, rfl, rfl, rfl, rfl, rfl, rfl, rfl⟩
  intro s f hp hfin
  unfold parse_f64 at hp
  cases hsp : stripPrefix1 '+' s with
  | none =>
    rw [hsp] at hp
    simp only [] at hp
    split_ifs at hp with hinf hneg hnan
    · refine Or.inl ⟨?_, ?_⟩
      · injection hp with hf; exact hf.symm
      · tauto
    · refine Or.inr (Or.inl ⟨?_, ?_⟩)
      · injection hp with hf; exact hf.symm
      · tauto
    · refine Or.inr (Or.inr ⟨?_, ?_⟩)
      · injection hp with hf; exact hf.symm
      · tauto
    · exfalso
      cases hr : rustParseF64 s with
      | none => rw [hr] at hp; exact Option.noConfusion hp
      | some g =>
        rw [hr] at hp
        cases hg : g.isFinite with
        | true =>
          simp only [hg, if_true, Option.some.injEq] at hp
          rw [hp] at hg
          rw [hfin] at hg
          exact Bool.noConfusion hg
        | false =>
          simp only [hg, Bool.false_eq_true, if_false] at hp
          exact Option.noConfusion hp
  | some rest =>
    have hs := stripPrefix1_eq_some hsp
    rw [hsp] at hp
    simp only [] at hp
    cases hsw : startsWithSign rest with
    | true => rw [hsw] at hp; simp at hp
    | false =>
      rw [hsw] at hp
      simp only [Bool.false_eq_true, if_false] at hp
      split_ifs at hp with hinf hneg hnan
      · refine Or.inl ⟨?_, ?_⟩
        · injection hp with hf; exact hf.symm
        · subst hs
          rcases hinf with h|h|h <;> subst h
          · exact Or.inr (Or.inr (Or.inr (Or.inl rfl)))
          · exact Or.inr (Or.inr (Or.inr (Or.inr (Or.inl rfl))))
          · exact Or.inr (Or.inr (Or.inr (Or.inr (Or.inr rfl))))
      · refine Or.inr (Or.inl ⟨?_, ?_⟩)
        · injection hp with hf; exact hf.symm
        · tauto
      · refine Or.inr (Or.inr ⟨?_, ?_⟩)
        · injection hp with hf; exact hf.symm
        · tauto
      · exfalso
        cases hr : rustParseF64 rest with
        | none => rw [hr] at hp; exact Option.noConfusion hp
        | some g =>
          rw [hr] at hp
          cases hg : g.isFinite with
          | true =>
            simp only [hg, if_true, Option.some.injEq] at hp
            rw [hp] at hg
            rw [hfin] at hg
            exact Bool.noConfusion hg
          | false =>
            simp only [hg, Bool.false_eq_true, if_false] at hp
            exact Option.noConfusion hp

/-- C3 (witness): the finiteness clause applied at the concrete input ".NAN"
with the non-finite result NaN. -/
theorem c3_float_specials_witness :
    YF64.nan = .posInf ∧ (".NAN".data = ".inf".data ∨ ".NAN".data = ".Inf".data ∨
      ".NAN".data = ".INF".data ∨ ".NAN".data = "+.inf".data ∨
      ".NAN".data = "+.Inf".data ∨ ".NAN".data = "+.INF".data) ∨
    (YF64.nan = .negInf ∧ (".NAN".data = "-.inf".data ∨ ".NAN".data = "-.Inf".data ∨
      ".NAN".data = "-.INF".data)) ∨
    (YF64.nan = .nan ∧ (".NAN".data = ".nan".data ∨ ".NAN".data = ".NaN".data ∨
      ".NAN".data = ".NAN".data)) := by
  have h := c3_float_specials_and_finiteness.2 ".NAN".data YF64.nan rfl rfl
  tauto

/-- C4 (confirmed): an optionally signed decimal token made of a leading
zero followed by one or more further digits is rejected by every integer
resolution stage and resolves to the literal string, never an integer. -/
theorem c4_leading_zero_resolves_to_string (ds : List Char) (v : List Char)
    (hshape : v = '0' :: ds ∨ v = '-' :: '0' :: ds ∨ v = '+' :: '0' :: ds)
    (hne : ds ≠ []) (hds : ds.all (·.isDigit) = true) :
    visit_untagged_scalar v = Value.str v := by
  have hdig := leadingZeroToken_digits_but_not_number ds v hshape hne hds
  have hu1 := leadingZeroToken_parse_unsigned_int (uintFromStrRadix (2 ^ 64)) ds v hshape hne hds
  have hn1 := leadingZeroToken_parse_negative_int (intFromStrRadix (2 ^ 63)) ds v hshape hne hds
  have hu2 := leadingZeroToken_parse_unsigned_int (uintFromStrRadix (2 ^ 128)) ds v hshape hne hds
  have hn2 := leadingZeroToken_parse_negative_int (intFromStrRadix (2 ^ 127)) ds v hshape hne hds
  have hE : v ≠ [] := by
    rcases hshape with h|h|h <;> subst h <;> simp
  have hpn : parse_null v = none := by
    rcases hshape with h|h|h <;> subst h <;> simp [parse_null]
  have hpb : parse_bool v = none := by
    rcases hshape with h|h|h <;> subst h <;> simp [parse_bool]
  have hvi : visit_int v = none := by
    unfold visit_int
    rw [hu1, hn1, hu2, hn2]
  unfold visit_untagged_scalar
  simp [hE, hpn, hpb, hvi, hdig]

/-- C4 (witness): the theorem applied at the concrete tokens "007" and
"-007", both of which resolve to strings. -/
theorem c4_leading_zero_witness :
    visit_untagged_scalar "007".data = Value.str "007".data ∧
    visit_untagged_scalar "-007".data = Value.str "-007".data := by
  constructor
  · exact c4_leading_zero_resolves_to_string "07".data "007".data
      (Or.inl rfl) (by decide) (by decide)
  · exact c4_leading_zero_resolves_to_string "07".data "-007".data
      (Or.inr (Or.inl rfl)) (by decide) (by decide)

/-- C8 (confirmed): fix_mark writes the current mark and rendered path only
onto a semantic Message that has no position yet; every error that already
carries a position, and every non-Message error, is returned unchanged by
each outer frame, so the innermost stamp survives arbitrarily many
propagation frames. -/
theorem c8_fix_mark_innermost_wins :
    (∀ (msg : String) (mark : Mark) (path : Path),
      fix_mark (.message msg none) mark path =
        .message msg (some ⟨mark, path.render⟩)) ∧
    (∀ (e : ErrorImpl) (mark : Mark) (path : Path),
      (∀ msg : String, e ≠ .message msg none) → fix_mark e mark path = e) ∧
    (∀ (msg : String) (pos : ErrPos) (frames : List (Mark × Path)),
      frames.foldl (fun acc mp => fix_mark acc mp.1 mp.2)
        (.message msg (some pos)) = .message msg (some pos)) := by
  refine ⟨fun msg mark path => rfl, ?_, ?_⟩
  · intro e mark path h
    cases e with
    | message msg pos =>
      cases pos with
      | none => exact absurd rfl (h msg)
      | some p => rfl
    | libyamlError msg mk => rfl
    | ioError msg => rfl
    | fromUtf8 msg => rfl
    | endOfStream => rfl
    | moreThanOneDocument => rfl
    | recursionLimitExceeded mk => rfl
    | unknownAnchor mk => rfl
    | shared e => rfl
  · intro msg pos frames
    induction frames with
    | nil => rfl
    | cons mp rest ih => simpa [fix_mark] using ih

/-- C8 (witness): an error already carrying a mark — a recursion-limit
error — passes through fix_mark unchanged. -/
theorem c8_fix_mark_witness :
    fix_mark (.recursionLimitExceeded ⟨5, 0, 5⟩) ⟨9, 1, 2⟩ Path.root =
      .recursionLimitExceeded ⟨5, 0, 5⟩ :=
  c8_fix_mark_innermost_wins.2.1 (.recursionLimitExceeded ⟨5, 0, 5⟩) ⟨9, 1, 2⟩
    Path.root (fun _ h => ErrorImpl.noConfusion h)

/-- C9 (confirmed): span capture of " [1, 22, 333]" yields (start, length)
pairs recovering exactly the substrings "1", "22", "333" for the elements
and "[1, 22, 333]" for the wrapping sequence; in general the captured
length of a scalar is its decoded byte length, and the captured length of a
sequence is computed by the forward scan to the matching SequenceEnd. -/
theorem c9_span_capture :
    (spanAt spanExampleDoc 1 = .ok (2, 1) ∧
     spanAt spanExampleDoc 2 = .ok (5, 2) ∧
     spanAt spanExampleDoc 3 = .ok (9, 3) ∧
     spanAt spanExampleDoc 0 = .ok (1, 12) ∧
     substringBytes spanExampleInput 2 1 = "1".data ∧
     substringBytes spanExampleInput 5 2 = "22".data ∧
     substringBytes spanExampleInput 9 3 = "333".data ∧
     substringBytes spanExampleInput 1 12 = "[1, 22, 333]".data) ∧
    (∀ (doc : Document) (pos : Nat) (sc : Scalar) (m : Mark),
      doc.events[pos]? = some (.scalar sc, m) →
      currentItemLength doc pos = .ok sc.value.length) ∧
    (∀ (doc : Document) (pos : Nat) (m : Mark),
      doc.events[pos]? = some (.sequenceStart, m) →
      currentItemLength doc pos =
        (match indexOfSequenceEnd doc pos with
         | .ok e => .ok (e - m.index)
         | .error e => .error e)) := by
  refine ⟨⟨rfl, rfl, rfl, rfl, rfl, rfl, rfl, rfl⟩, ?_, ?_⟩
  · intro doc pos sc m h
    unfold currentItemLength
    rw [h]
  · intro doc pos m h
    unfold currentItemLength
    rw [h]

/-- C9 (witness): the scalar-length clause applied at the first element of
the concrete span-capture document. -/
theorem c9_span_witness :
    currentItemLength spanExampleDoc 1 = .ok ("1".data).length :=
  c9_span_capture.2.1 spanExampleDoc 1 ⟨none, .plain, "1".data⟩ ⟨2, 0, 2⟩ rfl

/-- C7 (counterexample): a stream of two documents whose first document
holds only a dangling alias fails with the deferred UnknownAnchor error
rather than with the fixed more-than-one-document message, because
Deserializer::de deserializes the first document before checking whether a
second one is pending. -/
theorem c7_counterexample_first_document_fails :
    deserializeSingleDocument
      [loadDocument [(RawEvent.alias "a", ⟨4, 1, 0⟩)], docScalar1] 50 =
      .error (.err (.shared (.unknownAnchor ⟨4, 1, 0⟩))) ∧
    ErrorImpl.shared (.unknownAnchor ⟨4, 1, 0⟩) ≠ .moreThanOneDocument :=
  ⟨rfl, by decide⟩

/-- C7 (corrected): when an input stream holds more than one document and
its first document deserializes successfully, the single-value entry point
fails with the MoreThanOneDocument error whose display is the fixed
message, while iterating deserializes every document independently — 0 then
1 for the two-document example input. -/
theorem c7_multi_document :
    (∀ (d : Document) (rest : List Document) (fuel : Nat) (v : Value) (p : Nat),
      rest ≠ [] →
      deserializeAnyF d fuel 0 128 .root = .ok (v, p) →
      deserializeSingleDocument (d :: rest) fuel =
        .error (.err .moreThanOneDocument)) ∧
    errorDisplay .moreThanOneDocument =
      "deserializing from YAML containing more than one document is not supported" ∧
    deserializeSingleDocument [docScalar0, docScalar1] 50 =
      .error (.err .moreThanOneDocument) ∧
    deserializeEachDocument [docScalar0, docScalar1] 50 =
      [.ok (.u64 0), .ok (.u64 1)] := by
  refine ⟨?_, rfl, rfl, rfl⟩
  intro d rest fuel v p hne hok
  cases rest with
  | nil => exact absurd rfl hne
  | cons a l =>
    unfold deserializeSingleDocument
    simp only [hok]

/-- C7 (witness): the more-than-one-document clause applied to the concrete
two-document stream whose first document decodes to 0. -/
theorem c7_multi_document_witness :
    deserializeSingleDocument [docScalar0, docScalar1] 50 =
      .error (.err .moreThanOneDocument) :=
  c7_multi_document.1 docScalar0 [docScalar1] 50 (.u64 0) 1
    (List.cons_ne_nil docScalar1 []) rfl

/-- Helper characterizing parse_null success. -/
theorem parse_null_eq_some {v : List Char} {u : Unit} (h : parse_null v = some u) :
    v = "~".data ∨ v = "null".data := by
  revert h
  unfold parse_null
  split
  · intro _
    assumption
  · intro h
    exact Option.noConfusion h

/-- C10 (confirmed): deserializing an optional value yields None exactly
when the peeked event is a plain-style scalar that is either tagged null
with text "~" or "null", or untagged with empty text, "~", or "null"; a
scalar of any non-plain style — including one whose text is "null" — and
every sequence or mapping start yields Some of the recursively decoded
value. -/
theorem c10_option_null_decision :
    (∀ (doc : Document) (fuel pos depth : Nat) (path : Path) (sc : Scalar) (m : Mark),
      doc.events[pos]? = some (.scalar sc, m) →
      (deserializeOptionF doc (fuel + 1) pos depth path = .ok (none, pos + 1) ↔
        (sc.style = .plain ∧
          ((sc.tag = some Tag.nullTag ∧ (sc.value = "~".data ∨ sc.value = "null".data)) ∨
           (sc.tag = none ∧ (sc.value = [] ∨ sc.value = "~".data ∨ sc.value = "null".data)))))) ∧
    (∀ (doc : Document) (fuel pos depth : Nat) (path : Path) (sc : Scalar) (m : Mark),
      doc.events[pos]? = some (.scalar sc, m) → sc.style ≠ .plain →
      deserializeOptionF doc (fuel + 1) pos depth path =
        (match deserializeAnyF doc (fuel + 1) pos depth path with
         | .ok (v, p) => .ok (some v, p)
         | .error e => .error e)) ∧
    (∀ (doc : Document) (fuel pos depth : Nat) (path : Path) (m : Mark),
      (doc.events[pos]? = some (.sequenceStart, m) ∨
       doc.events[pos]? = some (.mappingStart, m)) →
      deserializeOptionF doc (fuel + 1) pos depth path =
        (match deserializeAnyF doc (fuel + 1) pos depth path with
         | .ok (v, p) => .ok (some v, p)
         | .error e => .error e)) := by
  have hpeek : ∀ (doc : Document) (pos : Nat) (ev : Event) (m : Mark),
      doc.events[pos]? = some (ev, m) →
      peekEventMark doc pos = .ok (ev, m) := by
    intro doc pos ev m h
    unfold peekEventMark
    rw [h]
  refine ⟨?_, ?_, ?_⟩
  · intro doc fuel pos depth path sc m h
    have hsome : ∀ (r : Except EngineErr (Value × Nat)),
        (match r with
         | .ok (v, p) => (.ok (some v, p) : Except EngineErr (Option Value × Nat))
         | .error e => .error e) = .ok (none, pos + 1) → False := by
      intro r hr
      cases r with
      | ok vp =>
        cases vp with
        | mk v p => simp at hr
      | error e => simp at hr
    unfold deserializeOptionF
    rw [hpeek doc pos _ m h]
    simp only []
    by_cases hst : sc.style = ScalarStyle.plain
    case neg =>
      rw [if_pos hst]
      constructor
      · intro hres
        exact absurd hres (fun hr => hsome _ hr)
      · intro hrhs
        exact absurd hrhs.1 hst
    case pos =>
      rw [if_neg (by simp [hst])]
      cases htag : sc.tag with
      | some t =>
        simp only []
        by_cases hnt : t = Tag.nullTag
        · subst hnt
          rw [if_pos rfl]
          cases hpn : parse_null sc.value with
          | some u =>
            rcases parse_null_eq_some hpn with hv | hv <;>
              simp [hst, hv]
          | none =>
            have h1 : parse_null "~".data = none → False := by
              intro hh
              exact Option.noConfusion hh
            have h2 : parse_null "null".data = none → False := by
              intro hh
              exact Option.noConfusion hh
            simp only []
            constructor
            · intro hres
              exact Except.noConfusion hres
            · rintro ⟨-, (⟨-, hv⟩ | ⟨htn, -⟩)⟩
              · rcases hv with hv | hv <;> rw [hv] at hpn
                · exact absurd hpn h1
                · exact absurd hpn h2
              · exact Option.noConfusion htn
        · rw [if_neg hnt]
          constructor
          · intro hres
            exact absurd hres (fun hr => hsome _ hr)
          · rintro ⟨-, (⟨htn, -⟩ | ⟨htn, -⟩)⟩
            · injection htn with htn2
              exact absurd htn2 hnt
            · exact Option.noConfusion htn
      | none =>
        simp only []
        cases hcond : (decide (sc.value ≠ []) && (parse_null sc.value).isNone) with
        | true =>
          rw [if_pos rfl]
          simp only [Bool.and_eq_true, decide_eq_true_eq,
            Option.isNone_iff_eq_none] at hcond
          constructor
          · intro hres
            exact absurd hres (fun hr => hsome _ hr)
          · rintro ⟨-, (⟨htn, -⟩ | ⟨-, hv⟩)⟩
            · exact Option.noConfusion htn
            · rcases hv with hv | hv | hv
              · exact absurd hv hcond.1
              · rw [hv] at hcond
                exact Option.noConfusion hcond.2
              · rw [hv] at hcond
                exact Option.noConfusion hcond.2
        | false =>
          rw [if_neg Bool.false_ne_true]
          constructor
          · intro _
            refine ⟨hst, Or.inr ⟨by trivial, ?_⟩⟩
            by_cases hemp : sc.value = []
            · exact Or.inl hemp
            · right
              have hdec : decide (sc.value ≠ []) = true := decide_eq_true hemp
              have hin : (parse_null sc.value).isNone = false := by
                cases hin2 : (parse_null sc.value).isNone with
                | false => rfl
                | true =>
                  rw [hdec, hin2] at hcond
                  exact Bool.noConfusion hcond
              cases hpn : parse_null sc.value with
              | none =>
                rw [hpn] at hin
                simp at hin
              | some u => exact parse_null_eq_some hpn
          · intro _
            rfl
  · intro doc fuel pos depth path sc m h hstyle
    unfold deserializeOptionF
    rw [hpeek doc pos _ m h]
    simp only []
    rw [if_pos hstyle]
  · intro doc fuel pos depth path m h
    rcases h with h | h <;>
      (unfold deserializeOptionF; rw [hpeek doc pos _ m h])

/-- C10 (witness): the None clause applied at a plain untagged "~" scalar,
and the Some clause applied at a double-quoted "null" scalar. -/
theorem c10_option_null_witness :
    deserializeOptionF
      ⟨[(Event.scalar ⟨none, ScalarStyle.plain, "~".data⟩, ⟨0, 0, 0⟩)], [], none⟩
      10 0 128 .root = .ok (none, 1) ∧
    deserializeOptionF
      ⟨[(Event.scalar ⟨none, ScalarStyle.doubleQuoted, "null".data⟩, ⟨0, 0, 0⟩)], [], none⟩
      10 0 128 .root = .ok (some (.str "null".data), 1) := by
  constructor
  · exact (c10_option_null_decision.1
      ⟨[(Event.scalar ⟨none, ScalarStyle.plain, "~".data⟩, ⟨0, 0, 0⟩)], [], none⟩
      9 0 128 .root ⟨none, ScalarStyle.plain, "~".data⟩ ⟨0, 0, 0⟩ rfl).mpr
      ⟨rfl, Or.inr ⟨rfl, Or.inr (Or.inl rfl)⟩⟩
  · have h := c10_option_null_decision.2.1
      ⟨[(Event.scalar ⟨none, ScalarStyle.doubleQuoted, "null".data⟩, ⟨0, 0, 0⟩)], [], none⟩
      9 0 128 .root ⟨none, ScalarStyle.doubleQuoted, "null".data⟩ ⟨0, 0, 0⟩ rfl
      (by intro hh; exact ScalarStyle.noConfusion hh)
    rw [h]
    rfl

/-- Helper for end_sequence: starting from element position e 0 with len
elements already consumed, the drain loop skips the r remaining elements
(each skipped by ignore_any, which sends position e i to e (i+1)), counts
the true total, and end_sequence then consumes the end event and compares. -/
theorem endSequence_drain_spec (doc : Document) (r : Nat) :
    ∀ (e : Nat → Nat) (len fuel F0 : Nat) (m : Mark),
    (∀ i, i < r → ∃ ev mi, doc.events[e i]? = some (ev, mi) ∧ ev ≠ Event.sequenceEnd) →
    (∀ i g, i < r → F0 ≤ g → ignoreAnyF doc g (e i) [] = .ok (e (i + 1))) →
    doc.events[e r]? = some (.sequenceEnd, m) →
    F0 + r + 2 ≤ fuel →
    drainSeqF doc fuel (e 0) len = .ok (len + r, e r) ∧
    endSequenceF doc fuel (e 0) len =
      (if r = 0 then .ok (e r + 1)
       else .error (.err (.message
         (invalidLengthMsg (len + r) (expectedSeqText len)) none))) := by
  induction r with
  | zero =>
    intro e len fuel F0 m hev hstep hend hfuel
    obtain ⟨f1, rfl⟩ : ∃ f1, fuel = f1 + 1 := ⟨fuel - 1, by omega⟩
    have hpk : peekEventMark doc (e 0) = .ok (.sequenceEnd, m) := by
      unfold peekEventMark
      rw [hend]
    have hdrain : drainSeqF doc (f1 + 1) (e 0) len = .ok (len, e 0) := by
      simp only [drainSeqF]
      rw [hpk]
    refine ⟨by rw [Nat.add_zero]; exact hdrain, ?_⟩
    simp only [endSequenceF]
    rw [hdrain]
    simp [hpk]
  | succ r ih =>
    intro e len fuel F0 m hev hstep hend hfuel
    obtain ⟨f, rfl⟩ : ∃ f, fuel = f + 1 := ⟨fuel - 1, by omega⟩
    obtain ⟨ev0, m0, hm0, hne⟩ := hev 0 (by omega)
    have hpk : peekEventMark doc (e 0) = .ok (ev0, m0) := by
      unfold peekEventMark
      rw [hm0]
    have ihall := ih (fun i => e (i + 1)) (len + 1) f F0 m
      (fun i hi => hev (i + 1) (by omega))
      (fun i g hi hg => hstep (i + 1) g (by omega) hg)
      hend (by omega)
    have ihres := ihall.1
    simp only [] at ihres
    have hdrain : drainSeqF doc (f + 1) (e 0) len = .ok (len + (r + 1), e (r + 1)) := by
      simp only [drainSeqF]
      rw [hpk]
      simp only []
      rcases ev0 with id | sc | _ | _ | _ | _
      · try simp only []
        rw [hstep 0 f (by omega) (by omega)]
        try simp only []
        rw [ihres]
        rw [show len + 1 + r = len + (r + 1) from by omega]
      · try simp only []
        rw [hstep 0 f (by omega) (by omega)]
        try simp only []
        rw [ihres]
        rw [show len + 1 + r = len + (r + 1) from by omega]
      · try simp only []
        rw [hstep 0 f (by omega) (by omega)]
        try simp only []
        rw [ihres]
        rw [show len + 1 + r = len + (r + 1) from by omega]
      · exact absurd rfl hne
      · try simp only []
        rw [hstep 0 f (by omega) (by omega)]
        try simp only []
        rw [ihres]
        rw [show len + 1 + r = len + (r + 1) from by omega]
      · try simp only []
        rw [hstep 0 f (by omega) (by omega)]
        try simp only []
        rw [ihres]
        rw [show len + 1 + r = len + (r + 1) from by omega]
    refine ⟨hdrain, ?_⟩
    have hpk2 : peekEventMark doc (e (r + 1)) = .ok (.sequenceEnd, m) := by
      unfold peekEventMark
      rw [hend]
    simp only [endSequenceF]
    rw [hdrain]
    simp [hpk2, show ¬len + (r + 1) = len from by omega,
      show ¬r + 1 = 0 from by omega]


/-- Helper for end_mapping: the analogous drain over r remaining entries of
two events each. -/
theorem endMapping_drain_spec (doc : Document) (r : Nat) :
    ∀ (e : Nat → Nat) (len fuel F0 : Nat) (m : Mark),
    (∀ i, i < 2 * r → ∃ ev mi, doc.events[e i]? = some (ev, mi) ∧ ev ≠ Event.mappingEnd) →
    (∀ i g, i < 2 * r → F0 ≤ g → ignoreAnyF doc g (e i) [] = .ok (e (i + 1))) →
    doc.events[e (2 * r)]? = some (.mappingEnd, m) →
    F0 + 2 * r + 2 ≤ fuel →
    drainMapF doc fuel (e 0) len = .ok (len + r, e (2 * r)) ∧
    endMappingF doc fuel (e 0) len =
      (if r = 0 then .ok (e (2 * r) + 1)
       else .error (.err (.message
         (invalidLengthMsg (len + r) (expectedMapText len)) none))) := by
  induction r with
  | zero =>
    intro e len fuel F0 m hev hstep hend hfuel
    rw [Nat.mul_zero] at hend
    obtain ⟨f1, rfl⟩ : ∃ f1, fuel = f1 + 1 := ⟨fuel - 1, by omega⟩
    have hpk : peekEventMark doc (e 0) = .ok (.mappingEnd, m) := by
      unfold peekEventMark
      rw [hend]
    have hdrain : drainMapF doc (f1 + 1) (e 0) len = .ok (len, e 0) := by
      simp only [drainMapF]
      rw [hpk]
    rw [Nat.mul_zero]
    refine ⟨by rw [Nat.add_zero]; exact hdrain, ?_⟩
    simp only [endMappingF]
    rw [hdrain]
    simp [hpk]
  | succ r ih =>
    intro e len fuel F0 m hev hstep hend hfuel
    obtain ⟨f, rfl⟩ : ∃ f, fuel = f + 1 := ⟨fuel - 1, by omega⟩
    obtain ⟨ev0, m0, hm0, hne⟩ := hev 0 (by omega)
    have hpk : peekEventMark doc (e 0) = .ok (ev0, m0) := by
      unfold peekEventMark
      rw [hm0]
    have ihall := ih (fun i => e (i + 2)) (len + 1) f F0 m
      (fun i hi => hev (i + 2) (by omega))
      (fun i g hi hg => by
        have h := hstep (i + 2) g (by omega) hg
        rwa [show i + 2 + 1 = i + 1 + 2 from by omega] at h)
      (by
        show doc.events[e (2 * r + 2)]? = some (Event.mappingEnd, m)
        rw [show 2 * r + 2 = 2 * (r + 1) from by omega]
        exact hend) (by omega)
    have hstep0 : ignoreAnyF doc f (e 0) [] = .ok (e 1) :=
      hstep 0 f (by omega) (by omega)
    have hstep1 : ignoreAnyF doc f (e 1) [] = .ok (e 2) :=
      hstep 1 f (by omega) (by omega)
    have ihres2 : drainMapF doc f (e 2) (len + 1) = .ok (len + 1 + r, e (2 * r + 2)) :=
      ihall.1
    have hdrain : drainMapF doc (f + 1) (e 0) len = .ok (len + (r + 1), e (2 * (r + 1))) := by
      simp only [drainMapF]
      rw [hpk]
      simp only []
      rcases ev0 with id | sc | _ | _ | _ | _
      · try simp only []
        rw [hstep0]
        try simp only []
        rw [hstep1]
        try simp only []
        rw [ihres2]
        rw [show len + 1 + r = len + (r + 1) from by omega,
          show 2 * r + 2 = 2 * (r + 1) from by omega]
      · try simp only []
        rw [hstep0]
        try simp only []
        rw [hstep1]
        try simp only []
        rw [ihres2]
        rw [show len + 1 + r = len + (r + 1) from by omega,
          show 2 * r + 2 = 2 * (r + 1) from by omega]
      · try simp only []
        rw [hstep0]
        try simp only []
        rw [hstep1]
        try simp only []
        rw [ihres2]
        rw [show len + 1 + r = len + (r + 1) from by omega,
          show 2 * r + 2 = 2 * (r + 1) from by omega]
      · try simp only []
        rw [hstep0]
        try simp only []
        rw [hstep1]
        try simp only []
        rw [ihres2]
        rw [show len + 1 + r = len + (r + 1) from by omega,
          show 2 * r + 2 = 2 * (r + 1) from by omega]
      · try simp only []
        rw [hstep0]
        try simp only []
        rw [hstep1]
        try simp only []
        rw [ihres2]
        rw [show len + 1 + r = len + (r + 1) from by omega,
          show 2 * r + 2 = 2 * (r + 1) from by omega]
      · exact absurd rfl hne
    refine ⟨hdrain, ?_⟩
    have hpk2 : peekEventMark doc (e (2 * (r + 1))) = .ok (.mappingEnd, m) := by
      unfold peekEventMark
      rw [hend]
    simp only [endMappingF]
    rw [hdrain]
    simp [hpk2, show ¬len + (r + 1) = len from by omega,
      show ¬r + 1 = 0 from by omega]


/-- C5 (confirmed): whenever the caller-supplied shape stops requesting
elements with len consumed while r elements (or entries) remain unread, the
engine drains the remainder with the throw-away ignored shape counting the
true total len + r, consumes the End event, succeeds when the remainder was
empty, and otherwise fails with the invalid-length message naming the true
total — "invalid length 3, expected sequence of 2 elements" and "invalid
length 2, expected map containing 1 entry" in the claim's scenarios. -/
theorem c5_container_drain_invalid_length :
    (∀ (doc : Document) (r : Nat) (e : Nat → Nat) (len fuel F0 : Nat) (m : Mark),
      (∀ i, i < r → ∃ ev mi, doc.events[e i]? = some (ev, mi) ∧ ev ≠ Event.sequenceEnd) →
      (∀ i g, i < r → F0 ≤ g → ignoreAnyF doc g (e i) [] = .ok (e (i + 1))) →
      doc.events[e r]? = some (.sequenceEnd, m) →
      F0 + r + 2 ≤ fuel →
      drainSeqF doc fuel (e 0) len = .ok (len + r, e r) ∧
      endSequenceF doc fuel (e 0) len =
        (if r = 0 then .ok (e r + 1)
         else .error (.err (.message
           (invalidLengthMsg (len + r) (expectedSeqText len)) none)))) ∧
    (∀ (doc : Document) (r : Nat) (e : Nat → Nat) (len fuel F0 : Nat) (m : Mark),
      (∀ i, i < 2 * r → ∃ ev mi, doc.events[e i]? = some (ev, mi) ∧ ev ≠ Event.mappingEnd) →
      (∀ i g, i < 2 * r → F0 ≤ g → ignoreAnyF doc g (e i) [] = .ok (e (i + 1))) →
      doc.events[e (2 * r)]? = some (.mappingEnd, m) →
      F0 + 2 * r + 2 ≤ fuel →
      drainMapF doc fuel (e 0) len = .ok (len + r, e (2 * r)) ∧
      endMappingF doc fuel (e 0) len =
        (if r = 0 then .ok (e (2 * r) + 1)
         else .error (.err (.message
           (invalidLengthMsg (len + r) (expectedMapText len)) none)))) :=
  ⟨fun doc r => endSequence_drain_spec doc r,
   fun doc r => endMapping_drain_spec doc r⟩

/-- C5 (witness): a 3-element sequence drained after 2 consumed elements
fails with "invalid length 3, expected sequence of 2 elements", and a
2-entry mapping drained after the 1 entry a singleton map expects fails
with "invalid length 2, expected map containing 1 entry". -/
theorem c5_container_drain_witness :
    endSequenceF
      ⟨[(Event.scalar ⟨none, .plain, "0".data⟩, ⟨1, 0, 1⟩),
        (Event.scalar ⟨none, .plain, "0".data⟩, ⟨4, 0, 4⟩),
        (Event.scalar ⟨none, .plain, "0".data⟩, ⟨7, 0, 7⟩),
        (Event.sequenceEnd, ⟨9, 0, 9⟩)], [], none⟩ 10 2 2 =
      .error (.err (.message
        (invalidLengthMsg 3 (expectedSeqText 2)) none)) ∧
    invalidLengthMsg 3 (expectedSeqText 2) =
      "invalid length 3, expected sequence of 2 elements" ∧
    endMappingF
      ⟨[(Event.scalar ⟨none, .doubleQuoted, "V".data⟩, ⟨0, 0, 0⟩),
        (Event.scalar ⟨none, .plain, "16".data⟩, ⟨5, 0, 5⟩),
        (Event.scalar ⟨none, .doubleQuoted, "other".data⟩, ⟨8, 1, 0⟩),
        (Event.scalar ⟨none, .plain, "32".data⟩, ⟨17, 1, 9⟩),
        (Event.mappingEnd, ⟨21, 2, 0⟩)], [], none⟩ 10 2 1 =
      .error (.err (.message
        (invalidLengthMsg 2 (expectedMapText 1)) none)) ∧
    invalidLengthMsg 2 (expectedMapText 1) =
      "invalid length 2, expected map containing 1 entry" := by
  refine ⟨?_, rfl, ?_, rfl⟩
  · have h := c5_container_drain_invalid_length.1
      ⟨[(Event.scalar ⟨none, .plain, "0".data⟩, ⟨1, 0, 1⟩),
        (Event.scalar ⟨none, .plain, "0".data⟩, ⟨4, 0, 4⟩),
        (Event.scalar ⟨none, .plain, "0".data⟩, ⟨7, 0, 7⟩),
        (Event.sequenceEnd, ⟨9, 0, 9⟩)], [], none⟩ 1 (fun i => 2 + i) 2 10 1 ⟨9, 0, 9⟩
      (by
        intro i hi
        have hi0 : i = 0 := by omega
        subst hi0
        exact ⟨Event.scalar ⟨none, .plain, "0".data⟩, ⟨7, 0, 7⟩, rfl, by decide⟩)
      (by
        intro i g hi hg
        have hi0 : i = 0 := by omega
        subst hi0
        obtain ⟨g1, rfl⟩ : ∃ g1, g = g1 + 1 := ⟨g - 1, by omega⟩
        simp only [ignoreAnyF]
        rfl)
      rfl (by omega)
    exact h.2.trans (if_neg (by decide))
  · have h := c5_container_drain_invalid_length.2
      ⟨[(Event.scalar ⟨none, .doubleQuoted, "V".data⟩, ⟨0, 0, 0⟩),
        (Event.scalar ⟨none, .plain, "16".data⟩, ⟨5, 0, 5⟩),
        (Event.scalar ⟨none, .doubleQuoted, "other".data⟩, ⟨8, 1, 0⟩),
        (Event.scalar ⟨none, .plain, "32".data⟩, ⟨17, 1, 9⟩),
        (Event.mappingEnd, ⟨21, 2, 0⟩)], [], none⟩ 1 (fun i => 2 + i) 1 10 1 ⟨21, 2, 0⟩
      (by
        intro i hi
        match i, hi with
        | 0, _ =>
          exact ⟨Event.scalar ⟨none, .doubleQuoted, "other".data⟩, ⟨8, 1, 0⟩, rfl, by decide⟩
        | 1, _ =>
          exact ⟨Event.scalar ⟨none, .plain, "32".data⟩, ⟨17, 1, 9⟩, rfl, by decide⟩)
      (by
        intro i g hi hg
        obtain ⟨g1, rfl⟩ : ∃ g1, g = g1 + 1 := ⟨g - 1, by omega⟩
        match i, hi with
        | 0, _ =>
          simp only [ignoreAnyF]
          rfl
        | 1, _ =>
          simp only [ignoreAnyF]
          rfl)
      rfl (by omega)
    exact h.2.trans (if_neg (by decide))

/-- Helper: the loader run splits over list append. -/
theorem loadRun_append (xs : List (RawEvent × Mark)) :
    ∀ (st : LoadState) (ys : List (RawEvent × Mark)),
    loadRun st (xs ++ ys) =
      (match loadRun st xs with
       | .ok st1 => loadRun st1 ys
       | .error d => .error d) := by
  induction xs with
  | nil => intro st ys; rfl
  | cons x rest ih =>
    intro st ys
    obtain ⟨re, m⟩ := x
    simp only [List.cons_append, loadRun]
    cases loadStep st re m with
    | ok st1 => exact ih st1 ys
    | error d => rfl

/-- C6 (confirmed, spec-modelled loader): when the loader meets an alias
whose anchor is not registered, the loaded document is truncated at the
alias and carries a deferred UnknownAnchor error with the alias's mark; the
engine surfaces exactly that error (never a crash) when its cursor reaches
the alias's position, and content before that position still decodes — for
the input [1, *a] the whole decode fails with the unknown anchor at the
alias's mark while the element before the alias decodes to 1. -/
theorem c6_unknown_anchor_deferred :
    (∀ (pre rest : List (RawEvent × Mark)) (st : LoadState) (name : String) (m : Mark),
      loadRun ⟨[], [], []⟩ pre = .ok st →
      lookupAnchor st.anchors name = none →
      loadDocument (pre ++ (RawEvent.alias name, m) :: rest) =
        ⟨st.events, st.aliases, some (.unknownAnchor m)⟩ ∧
      peekEventMark ⟨st.events, st.aliases, some (.unknownAnchor m)⟩
          st.events.length =
        .error (.err (.shared (.unknownAnchor m)))) ∧
    deserializeAnyF (loadDocument seqWithDanglingAlias) 50 0 128 .root =
      .error (.err (.shared (.unknownAnchor ⟨4, 0, 4⟩))) ∧
    deserializeAnyF (loadDocument seqWithDanglingAlias) 50 1 128 .root =
      .ok (.u64 1, 2) := by
  refine ⟨?_, rfl, rfl⟩
  intro pre rest st name m hpre hname
  constructor
  · unfold loadDocument
    rw [loadRun_append pre ⟨[], [], []⟩ ((RawEvent.alias name, m) :: rest)]
    rw [hpre]
    simp only [loadRun, loadStep, hname]
  · unfold peekEventMark
    simp [List.getElem?_eq_none]

/-- C6 (witness): the truncation clause applied to the concrete prefix
consisting of the scalar 1, with the dangling alias a following it. -/
theorem c6_unknown_anchor_witness :
    loadDocument
      [(RawEvent.scalar none ⟨none, ScalarStyle.plain, "1".data⟩, ⟨0, 0, 0⟩),
       (RawEvent.alias "a", ⟨2, 0, 2⟩)] =
      ⟨[(Event.scalar ⟨none, ScalarStyle.plain, "1".data⟩, ⟨0, 0, 0⟩)], [],
        some (.unknownAnchor ⟨2, 0, 2⟩)⟩ := by
  have h := (c6_unknown_anchor_deferred.1
    [(RawEvent.scalar none ⟨none, ScalarStyle.plain, "1".data⟩, ⟨0, 0, 0⟩)] []
    ⟨[], [], [(Event.scalar ⟨none, ScalarStyle.plain, "1".data⟩, ⟨0, 0, 0⟩)]⟩
    "a" ⟨2, 0, 2⟩ rfl rfl).1
  exact h

theorem withFixMark_recLimit {α : Type} (m : Mark) (pth : Path) (mk : Mark) :
    withFixMark m pth
        (.error (.err (.recursionLimitExceeded mk)) : Except EngineErr α) =
      .error (.err (.recursionLimitExceeded mk)) := rfl

theorem nestedSeqWindowSpec (doc : Document) (k : Nat) :
    ∀ (p depth fuel : Nat) (path : Path) (om cm : Nat → Mark),
    (∀ i, i < k + 1 → doc.events[p + i]? = some (.sequenceStart, om i)) →
    (∀ i, i < k + 1 → doc.events[p + (k + 1) + i]? = some (.sequenceEnd, cm i)) →
    2 * k + 6 ≤ fuel →
    (depth < k + 1 →
      deserializeAnyF doc fuel p depth path =
        .error (.err (.recursionLimitExceeded (om depth)))) ∧
    (k + 1 ≤ depth →
      deserializeAnyF doc fuel p depth path =
        .ok (nestedSeqValue k, p + 2 * (k + 1))) := by
  induction k with
  | zero =>
    intro p depth fuel path om cm ho hc hfuel
    obtain ⟨f1, rfl⟩ : ∃ f1, fuel = f1 + 2 := ⟨fuel - 2, by omega⟩
    have hm0 : doc.events[p]? = some (.sequenceStart, om 0) := by
      have h := ho 0 (by omega)
      rwa [Nat.add_zero] at h
    have hc0 : doc.events[p + 1]? = some (.sequenceEnd, cm 0) := by
      have h := hc 0 (by omega)
      rwa [Nat.add_zero] at h
    have hpk : peekEventMark doc p = .ok (.sequenceStart, om 0) := by
      unfold peekEventMark
      rw [hm0]
    have hpk1 : peekEventMark doc (p + 1) = .ok (.sequenceEnd, cm 0) := by
      unfold peekEventMark
      rw [hc0]
    constructor
    · intro hd
      have hd0 : depth = 0 := by omega
      subst hd0
      simp only [deserializeAnyF]
      rw [hpk]
      simp only [if_pos rfl]
      exact withFixMark_recLimit (om 0) path (om 0)
    · intro hd
      obtain ⟨d, rfl⟩ : ∃ d, depth = d + 1 := ⟨depth - 1, by omega⟩
      have hitems : seqItemsF doc (f1 + 1) (p + 1) d path 0 = .ok ([], p + 1) := by
        simp only [seqItemsF]
        rw [hpk1]
      have hdrain : drainSeqF doc (f1 + 1) (p + 1) 0 = .ok (0, p + 1) := by
        simp only [drainSeqF]
        rw [hpk1]
      have hend : endSequenceF doc (f1 + 1) (p + 1) 0 = .ok (p + 2) := by
        simp only [endSequenceF]
        rw [hdrain]
        simp [hpk1]
      simp only [deserializeAnyF]
      rw [hpk]
      simp only [if_neg (show ¬d + 1 = 0 from by omega), Nat.add_sub_cancel]
      rw [hitems]
      simp only [List.length_nil]
      rw [hend]
      rfl
  | succ k ih =>
    intro p depth fuel path om cm ho hc hfuel
    obtain ⟨f1, rfl⟩ : ∃ f1, fuel = f1 + 2 := ⟨fuel - 2, by omega⟩
    have hm0 : doc.events[p]? = some (.sequenceStart, om 0) := by
      have h := ho 0 (by omega)
      rwa [Nat.add_zero] at h
    have hpk : peekEventMark doc p = .ok (.sequenceStart, om 0) := by
      unfold peekEventMark
      rw [hm0]
    have hm1 : doc.events[p + 1]? = some (.sequenceStart, om 1) := by
      exact ho 1 (by omega)
    have hpk1 : peekEventMark doc (p + 1) = .ok (.sequenceStart, om 1) := by
      unfold peekEventMark
      rw [hm1]
    have ihall := ih (p + 1) (depth - 1) f1 (Path.seq path 0)
      (fun i => om (i + 1)) cm
      (fun i hi => by
        have h := ho (i + 1) (by omega)
        rwa [show p + (i + 1) = p + 1 + i from by omega] at h)
      (fun i hi => by
        have h := hc i (by omega)
        rwa [show p + (k + 2) + i = p + 1 + (k + 1) + i from by omega] at h)
      (by omega)
    constructor
    · intro hd
      cases hdep : depth with
      | zero =>
        subst hdep
        simp only [deserializeAnyF]
        rw [hpk]
        simp only [if_pos rfl]
        exact withFixMark_recLimit (om 0) path (om 0)
      | succ d =>
        subst hdep
        have hel : deserializeAnyF doc f1 (p + 1) d (Path.seq path 0) =
            .error (.err (.recursionLimitExceeded (om (d + 1)))) := by
          have h := ihall.1
          rw [Nat.add_sub_cancel] at h
          exact h (by omega)
        have hitems : seqItemsF doc (f1 + 1) (p + 1) d path 0 =
            .error (.err (.recursionLimitExceeded (om (d + 1)))) := by
          simp only [seqItemsF]
          rw [hpk1]
          try simp only []
          rw [hel]
        simp only [deserializeAnyF]
        rw [hpk]
        simp only [if_neg (show ¬d + 1 = 0 from by omega), Nat.add_sub_cancel]
        rw [hitems]
        exact withFixMark_recLimit (om 0) path (om (d + 1))
    · intro hd
      obtain ⟨d, rfl⟩ : ∃ d, depth = d + 1 := ⟨depth - 1, by omega⟩
      obtain ⟨f2, rfl⟩ : ∃ f2, f1 = f2 + 2 := ⟨f1 - 2, by omega⟩
      have hel : deserializeAnyF doc (f2 + 2) (p + 1) d (Path.seq path 0) =
          .ok (nestedSeqValue k, p + 1 + 2 * (k + 1)) := by
        have h := ihall.2
        rw [Nat.add_sub_cancel] at h
        exact h (by omega)
      have hcend : doc.events[p + 1 + 2 * (k + 1)]? =
          some (.sequenceEnd, cm (k + 1)) := by
        have h := hc (k + 1) (by omega)
        rwa [show p + (k + 2) + (k + 1) = p + 1 + 2 * (k + 1) from by omega] at h
      have hpkq : peekEventMark doc (p + 1 + 2 * (k + 1)) =
          .ok (.sequenceEnd, cm (k + 1)) := by
        unfold peekEventMark
        rw [hcend]
      have hitems2 : seqItemsF doc (f2 + 2) (p + 1 + 2 * (k + 1)) d path 1 =
          .ok ([], p + 1 + 2 * (k + 1)) := by
        simp only [seqItemsF]
        rw [hpkq]
      have hitems : seqItemsF doc (f2 + 2 + 1) (p + 1) d path 0 =
          .ok ([nestedSeqValue k], p + 1 + 2 * (k + 1)) := by
        generalize hG : f2 + 2 = G at hel hitems2 ⊢
        simp only [seqItemsF]
        rw [hpk1]
        try simp only []
        rw [hel]
        try simp only []
        rw [hitems2]
      have hdrain : drainSeqF doc (f2 + 2 + 1) (p + 1 + 2 * (k + 1)) 1 =
          .ok (1, p + 1 + 2 * (k + 1)) := by
        simp only [drainSeqF]
        rw [hpkq]
      have hend : endSequenceF doc (f2 + 2 + 1) (p + 1 + 2 * (k + 1)) 1 =
          .ok (p + 1 + 2 * (k + 1) + 1) := by
        simp only [endSequenceF]
        rw [hdrain]
        simp [hpkq]
      show deserializeAnyF doc (f2 + 2 + 1 + 1) p (d + 1) path =
        .ok (nestedSeqValue (k + 1), p + 2 * (k + 1 + 1))
      simp only [deserializeAnyF]
      rw [hpk]
      simp only [if_neg (show ¬d + 1 = 0 from by omega), Nat.add_sub_cancel]
      rw [hitems]
      simp only [List.length_cons, List.length_nil]
      rw [hend]
      rw [show p + 1 + 2 * (k + 1) + 1 = p + 2 * (k + 1 + 1) from by omega]
      rfl


theorem seqOpenRun_getElem (k off i : Nat) (h : i < k) :
    (seqOpenRun k off)[i]? = some (Event.sequenceStart, bracketMark (off + i)) := by
  unfold seqOpenRun
  rw [List.getElem?_map, List.getElem?_range h]
  rfl

theorem seqCloseRun_getElem (k off i : Nat) (h : i < k) :
    (seqCloseRun k off)[i]? = some (Event.sequenceEnd, bracketMark (off + i)) := by
  unfold seqCloseRun
  rw [List.getElem?_map, List.getElem?_range h]
  rfl

theorem seqOpenRun_length (k off : Nat) : (seqOpenRun k off).length = k := by
  unfold seqOpenRun
  rw [List.length_map, List.length_range]

theorem seqCloseRun_length (k off : Nat) : (seqCloseRun k off).length = k := by
  unfold seqCloseRun
  rw [List.length_map, List.length_range]

theorem nestedSeqDoc_open (n i : Nat) (h : i < n) :
    (nestedSeqDoc n).events[i]? = some (Event.sequenceStart, bracketMark i) := by
  show (seqOpenRun n 0 ++ seqCloseRun n n)[i]? = _
  rw [List.getElem?_append, seqOpenRun_length, if_pos h]
  have hrun := seqOpenRun_getElem n 0 i h
  rwa [Nat.zero_add] at hrun

theorem nestedSeqDoc_close (n i : Nat) (h : i < n) :
    (nestedSeqDoc n).events[n + i]? = some (Event.sequenceEnd, bracketMark (n + i)) := by
  show (seqOpenRun n 0 ++ seqCloseRun n n)[n + i]? = _
  rw [List.getElem?_append, seqOpenRun_length,
    if_neg (show ¬n + i < n from by omega)]
  rw [show n + i - n = i from by omega]
  exact seqCloseRun_getElem n n i h

theorem siblings_len1 :
    ([((Event.sequenceStart : Event), bracketMark 0)] ++
      (seqOpenRun 127 1 ++ seqCloseRun 127 128)).length = 255 := by
  simp [List.length_append, seqOpenRun_length, seqCloseRun_length]

theorem siblings_len2 :
    (([((Event.sequenceStart : Event), bracketMark 0)] ++
      (seqOpenRun 127 1 ++ seqCloseRun 127 128)) ++
      (seqOpenRun 127 255 ++ seqCloseRun 127 382)).length = 509 := by
  simp [List.length_append, seqOpenRun_length, seqCloseRun_length]

theorem siblings_open1 (i : Nat) (h : i < 127) :
    siblingsDoc.events[1 + i]? = some (Event.sequenceStart, bracketMark (1 + i)) := by
  show ((([(Event.sequenceStart, bracketMark 0)] ++
    (seqOpenRun 127 1 ++ seqCloseRun 127 128)) ++
    (seqOpenRun 127 255 ++ seqCloseRun 127 382)) ++
    [(Event.sequenceEnd, bracketMark 509)])[1 + i]? = _
  rw [List.getElem?_append, siblings_len2, if_pos (by omega)]
  rw [List.getElem?_append, siblings_len1, if_pos (by omega)]
  rw [List.getElem?_append, List.length_singleton, if_neg (by omega)]
  rw [List.getElem?_append, seqOpenRun_length, if_pos (by omega)]
  have hrun := seqOpenRun_getElem 127 1 (1 + i - 1) (by omega)
  rwa [show 1 + (1 + i - 1) = 1 + i from by omega] at hrun

theorem siblings_close1 (i : Nat) (h : i < 127) :
    siblingsDoc.events[128 + i]? = some (Event.sequenceEnd, bracketMark (128 + i)) := by
  show ((([(Event.sequenceStart, bracketMark 0)] ++
    (seqOpenRun 127 1 ++ seqCloseRun 127 128)) ++
    (seqOpenRun 127 255 ++ seqCloseRun 127 382)) ++
    [(Event.sequenceEnd, bracketMark 509)])[128 + i]? = _
  rw [List.getElem?_append, siblings_len2, if_pos (by omega)]
  rw [List.getElem?_append, siblings_len1, if_pos (by omega)]
  rw [List.getElem?_append, List.length_singleton, if_neg (by omega)]
  rw [List.getElem?_append, seqOpenRun_length, if_neg (by omega)]
  have hrun := seqCloseRun_getElem 127 128 (128 + i - 1 - 127) (by omega)
  rwa [show 128 + (128 + i - 1 - 127) = 128 + i from by omega] at hrun

theorem siblings_open2 (i : Nat) (h : i < 127) :
    siblingsDoc.events[255 + i]? = some (Event.sequenceStart, bracketMark (255 + i)) := by
  show ((([(Event.sequenceStart, bracketMark 0)] ++
    (seqOpenRun 127 1 ++ seqCloseRun 127 128)) ++
    (seqOpenRun 127 255 ++ seqCloseRun 127 382)) ++
    [(Event.sequenceEnd, bracketMark 509)])[255 + i]? = _
  rw [List.getElem?_append, siblings_len2, if_pos (by omega)]
  rw [List.getElem?_append, siblings_len1, if_neg (by omega)]
  rw [List.getElem?_append, seqOpenRun_length, if_pos (by omega)]
  have hrun := seqOpenRun_getElem 127 255 (255 + i - 255) (by omega)
  rwa [show 255 + (255 + i - 255) = 255 + i from by omega] at hrun

theorem siblings_close2 (i : Nat) (h : i < 127) :
    siblingsDoc.events[382 + i]? = some (Event.sequenceEnd, bracketMark (382 + i)) := by
  show ((([(Event.sequenceStart, bracketMark 0)] ++
    (seqOpenRun 127 1 ++ seqCloseRun 127 128)) ++
    (seqOpenRun 127 255 ++ seqCloseRun 127 382)) ++
    [(Event.sequenceEnd, bracketMark 509)])[382 + i]? = _
  rw [List.getElem?_append, siblings_len2, if_pos (by omega)]
  rw [List.getElem?_append, siblings_len1, if_neg (by omega)]
  rw [List.getElem?_append, seqOpenRun_length, if_neg (by omega)]
  have hrun := seqCloseRun_getElem 127 382 (382 + i - 255 - 127) (by omega)
  rwa [show 382 + (382 + i - 255 - 127) = 382 + i from by omega] at hrun

theorem siblings_root :
    siblingsDoc.events[0]? = some (Event.sequenceStart, bracketMark 0) := by
  show ((([(Event.sequenceStart, bracketMark 0)] ++
    (seqOpenRun 127 1 ++ seqCloseRun 127 128)) ++
    (seqOpenRun 127 255 ++ seqCloseRun 127 382)) ++
    [(Event.sequenceEnd, bracketMark 509)])[0]? = _
  rw [List.getElem?_append, siblings_len2, if_pos (by omega)]
  rw [List.getElem?_append, siblings_len1, if_pos (by omega)]
  rw [List.getElem?_append, List.length_singleton, if_pos (by omega)]
  rfl

theorem siblings_endEvent :
    siblingsDoc.events[509]? = some (Event.sequenceEnd, bracketMark 509) := by
  show ((([(Event.sequenceStart, bracketMark 0)] ++
    (seqOpenRun 127 1 ++ seqCloseRun 127 128)) ++
    (seqOpenRun 127 255 ++ seqCloseRun 127 382)) ++
    [(Event.sequenceEnd, bracketMark 509)])[509]? = _
  rw [List.getElem?_append, siblings_len2, if_neg (by omega)]
  rfl

theorem siblingsDoc_decode_spec (f : Nat) (hf : 258 ≤ f) :
    deserializeAnyF siblingsDoc (f + 4) 0 128 Path.root =
      .ok (.seq [nestedSeqValue 126, nestedSeqValue 126], 510) := by
  have hpk0 : peekEventMark siblingsDoc 0 = .ok (.sequenceStart, bracketMark 0) := by
    unfold peekEventMark
    rw [siblings_root]
  have hpk1 : peekEventMark siblingsDoc 1 = .ok (.sequenceStart, bracketMark 1) := by
    unfold peekEventMark
    have h := siblings_open1 0 (by omega)
    rw [show (1 : Nat) + 0 = 1 from rfl] at h
    rw [h]
  have hpk255 : peekEventMark siblingsDoc 255 = .ok (.sequenceStart, bracketMark 255) := by
    unfold peekEventMark
    have h := siblings_open2 0 (by omega)
    rw [show (255 : Nat) + 0 = 255 from rfl] at h
    rw [h]
  have hpk509 : peekEventMark siblingsDoc 509 = .ok (.sequenceEnd, bracketMark 509) := by
    unfold peekEventMark
    rw [siblings_endEvent]
  have hw1 : deserializeAnyF siblingsDoc (f + 2) 1 127 (Path.seq Path.root 0) =
      .ok (nestedSeqValue 126, 255) := by
    have h := (nestedSeqWindowSpec siblingsDoc 126 1 127 (f + 2) (Path.seq Path.root 0)
      (fun i => bracketMark (1 + i)) (fun i => bracketMark (128 + i))
      (fun i hi => siblings_open1 i (by omega))
      (fun i hi => by
        have hcl := siblings_close1 i (by omega)
        rw [show (1 : Nat) + (126 + 1) + i = 128 + i from by omega]
        exact hcl)
      (by omega)).2 (by omega)
    norm_num at h
    exact h
  have hw2 : deserializeAnyF siblingsDoc (f + 1) 255 127 (Path.seq Path.root 1) =
      .ok (nestedSeqValue 126, 509) := by
    have h := (nestedSeqWindowSpec siblingsDoc 126 255 127 (f + 1) (Path.seq Path.root 1)
      (fun i => bracketMark (255 + i)) (fun i => bracketMark (382 + i))
      (fun i hi => siblings_open2 i (by omega))
      (fun i hi => by
        have hcl := siblings_close2 i (by omega)
        rw [show (255 : Nat) + (126 + 1) + i = 382 + i from by omega]
        exact hcl)
      (by omega)).2 (by omega)
    norm_num at h
    exact h
  have hitemsC : seqItemsF siblingsDoc (f + 1) 509 127 Path.root 2 = .ok ([], 509) := by
    obtain ⟨G, hG⟩ : ∃ G, G = f := ⟨f, rfl⟩
    rw [show f + 1 = G + 1 from by omega]
    simp only [seqItemsF]
    rw [hpk509]
  have hitemsB : seqItemsF siblingsDoc (f + 2) 255 127 Path.root 1 =
      .ok ([nestedSeqValue 126], 509) := by
    generalize hG : f + 1 = G at hw2 hitemsC
    rw [show f + 2 = G + 1 from by omega]
    simp only [seqItemsF]
    rw [hpk255]
    try simp only []
    rw [hw2]
    try simp only []
    rw [hitemsC]
  have hitemsA : seqItemsF siblingsDoc (f + 3) 1 127 Path.root 0 =
      .ok ([nestedSeqValue 126, nestedSeqValue 126], 509) := by
    generalize hG : f + 2 = G at hw1 hitemsB
    rw [show f + 3 = G + 1 from by omega]
    simp only [seqItemsF]
    rw [hpk1]
    try simp only []
    rw [hw1]
    try simp only []
    rw [hitemsB]
  have hdrain : drainSeqF siblingsDoc (f + 3) 509 2 = .ok (2, 509) := by
    obtain ⟨G, hG⟩ : ∃ G, G = f + 2 := ⟨f + 2, rfl⟩
    rw [show f + 3 = G + 1 from by omega]
    simp only [drainSeqF]
    rw [hpk509]
  have hend : endSequenceF siblingsDoc (f + 3) 509 2 = .ok 510 := by
    simp only [endSequenceF]
    rw [hdrain]
    simp [hpk509]
  generalize hG : f + 3 = G at hitemsA hend
  rw [show f + 4 = G + 1 from by omega]
  simp only [deserializeAnyF]
  rw [hpk0]
  simp only [if_neg (show ¬(128 = 0) from by decide)]
  rw [show (0 : Nat) + 1 = 1 from rfl, show (128 : Nat) - 1 = 127 from rfl]
  rw [hitemsA]
  try simp only []
  rw [show ([nestedSeqValue 126, nestedSeqValue 126] : List Value).length = 2 from rfl]
  rw [hend]
  rfl

theorem nested1000_recursion_error :
    deserializeAnyF (nestedSeqDoc 1000) 3000 0 128 .root =
      .error (.err (.recursionLimitExceeded (bracketMark 128))) := by
  have h := (nestedSeqWindowSpec (nestedSeqDoc 1000) 999 0 128 3000 .root
    (fun i => bracketMark i) (fun i => bracketMark (1000 + i))
    (fun i hi => by
      have ho := nestedSeqDoc_open 1000 i (by omega)
      rwa [Nat.zero_add])
    (fun i hi => by
      have hcl := nestedSeqDoc_close 1000 i (by omega)
      rw [show (0 : Nat) + (999 + 1) + i = 1000 + i from by omega]
      exact hcl)
    (by omega)).1 (by omega)
  exact h

/-- C2 (counterexample): for the document of 1000 nested sequence opening
events at byte offsets 0..999 followed by their 1000 closers, decoding with
the default depth budget of 128 fails with the recursion-limit error carrying
the mark at byte offset 128, which is the mark of the 129th opening event;
the 128th opening event sits at byte offset 127, a different mark, so the
claim that the error is raised at the mark of the 128th opening event does
not hold. -/
theorem c2_counterexample_mark_of_128th :
    deserializeAnyF (nestedSeqDoc 1000) 3000 0 128 .root =
      .error (.err (.recursionLimitExceeded (bracketMark 128))) ∧
    (nestedSeqDoc 1000).events[127]? =
      some (.sequenceStart, bracketMark 127) ∧
    bracketMark 128 ≠ bracketMark 127 :=
  ⟨nested1000_recursion_error, nestedSeqDoc_open 1000 127 (by omega), by decide⟩

/-- C2 (corrected): with the default recursion budget of 128, the nesting
guard admits 128 nested containers and rejects the 129th before any
shape-specific handling: for 1000 balanced nested sequences the error is the
recursion-limit error raised at the mark of the 129th opening event (index
128). The depth counter is restored when a container exits: a root sequence
holding two sibling blocks of 127 nested pairs each, where either block
alone exhausts the remaining budget, decodes successfully. -/
theorem c2_recursion_limit_at_129th_opening :
    (deserializeAnyF (nestedSeqDoc 1000) 3000 0 128 .root =
       .error (.err (.recursionLimitExceeded (bracketMark 128))) ∧
     (nestedSeqDoc 1000).events[128]? =
       some (.sequenceStart, bracketMark 128)) ∧
    deserializeAnyF siblingsDoc 3000 0 128 .root =
      .ok (.seq [nestedSeqValue 126, nestedSeqValue 126], 510) := by
  refine ⟨⟨nested1000_recursion_error, nestedSeqDoc_open 1000 128 (by omega)⟩, ?_⟩
  have h := siblingsDoc_decode_spec 2996 (by omega)
  exact h

end SerdeYaml
